import Mathlib

/-!
# Verification of the GTpo directed-graph topology engine (QuickQanava)

A shallow embedding of the GTpo generic graph engine: nodes with in/out
edge lists and in/out neighbour caches (`gtpoGenNode.h`), a graph owning
nodes, edges, groups and a root-node set, and the mutation API
(`insertNode`, `removeNode`, `createEdge`, `removeEdge`, `insertGroup`,
`removeGroup`, `groupNode`, `ungroupNode`) with its behaviour
notifications.  Only `gtpoGenNode.h` ships the concrete code (the node
destructor and the declarations of the edge-management primitives with
their documented semantics); the GenGraph implementation is modelled
from the specification, as marked on each definition.

Entities are identified by natural-number ids; a `Handle` records the id
of the owning graph instance together with the entity id, so that a
handle from a different graph instance is detectable.  Edge weights are
rationals (the C++ `WeightType` is a numeric type whose value never
influences topology decisions).
-/

namespace GTpo

/-- Error taxonomy of the engine: `unknownEntity` for a handle that does
not belong to the owner, `badTopology` for an internal adjacency
consistency failure (`gtpo::bad_topology_error`). -/
inductive GErr where
  | unknownEntity : GErr
  | badTopology : GErr
deriving DecidableEq, Repr

/-- Behaviour notifications fired by the graph and by groups. -/
inductive Notif where
  | nodeInserted (nid : Nat) : Notif
  | nodeRemoved (nid : Nat) : Notif
  | edgeInserted (eid : Nat) : Notif
  | edgeRemoved (eid : Nat) : Notif
  | groupInserted (gid : Nat) : Notif
  | groupRemoved (gid : Nat) : Notif
  | groupMemberInserted (gid nid : Nat) : Notif
  | groupMemberRemoved (gid nid : Nat) : Notif
deriving DecidableEq, Repr

/-- A node record: in/out edge lists, the in/out neighbour caches, the
optional group back-reference and the owning-graph back-reference
(`GenNode::_inEdges/_outEdges/_inNodes/_outNodes/_group/_graph`). -/
structure NodeRec where
  inEdges : List Nat
  outEdges : List Nat
  inNodes : List Nat
  outNodes : List Nat
  group : Option Nat
  graph : Option Nat
deriving DecidableEq, Repr

/-- A fresh, detached node: empty adjacency, no group, no graph. -/
def NodeRec.empty : NodeRec :=
  { inEdges := [], outEdges := [], inNodes := [], outNodes := [],
    group := none, graph := none }

/-- An edge record: source node id, destination node id and weight. -/
structure EdgeRec where
  src : Nat
  dst : Nat
  weight : Rat
deriving DecidableEq, Repr

/-- A group record: its member node ids. -/
structure GroupRec where
  nodes : List Nat
deriving DecidableEq, Repr

/-- The graph: an instance identity `gid`, the owned node/edge/group
collections keyed by id, the root-node set and a fresh-id counter. -/
structure Graph where
  gid : Nat
  nodes : List (Nat × NodeRec)
  edges : List (Nat × EdgeRec)
  groups : List (Nat × GroupRec)
  rootNodes : List Nat
  nextId : Nat
deriving DecidableEq, Repr

/-- A stable, copyable handle: the owning graph instance id plus the
entity id. -/
structure Handle where
  owner : Nat
  id : Nat
deriving DecidableEq, Repr

/-- The empty graph with instance identity `gid`. -/
def emptyGraph (gid : Nat) : Graph :=
  { gid := gid, nodes := [], edges := [], groups := [], rootNodes := [], nextId := 0 }

/-! ## Keyed association-list helpers -/

/-- Look up the value stored under key `k`. -/
def lookupKey (k : Nat) : List (Nat × α) → Option α
  | [] => none
  | p :: rest => if p.1 = k then some p.2 else lookupKey k rest

/-- Apply `f` to the value stored under key `k`, leaving other entries
unchanged. -/
def updKey (k : Nat) (f : α → α) (l : List (Nat × α)) : List (Nat × α) :=
  l.map fun p => if p.1 = k then (p.1, f p.2) else p

/-- Remove the entry stored under key `k`. -/
def eraseKey (k : Nat) (l : List (Nat × α)) : List (Nat × α) :=
  l.filter fun p => p.1 ≠ k

/-- The list of keys. -/
def keysOf (l : List (Nat × α)) : List Nat :=
  l.map Prod.fst

@[simp] theorem lookupKey_nil (k : Nat) : lookupKey k ([] : List (Nat × α)) = none := rfl

theorem lookupKey_cons (k : Nat) (p : Nat × α) (rest : List (Nat × α)) :
    lookupKey k (p :: rest) = if p.1 = k then some p.2 else lookupKey k rest := rfl

@[simp] theorem keysOf_nil : keysOf ([] : List (Nat × α)) = [] := rfl

@[simp] theorem keysOf_cons (p : Nat × α) (rest : List (Nat × α)) :
    keysOf (p :: rest) = p.1 :: keysOf rest := rfl

@[simp] theorem updKey_nil (k : Nat) (f : α → α) : updKey k f ([] : List (Nat × α)) = [] := rfl

theorem updKey_cons (k : Nat) (f : α → α) (p : Nat × α) (rest : List (Nat × α)) :
    updKey k f (p :: rest) =
      (if p.1 = k then (p.1, f p.2) else p) :: updKey k f rest := by
  by_cases h : p.1 = k <;> simp [updKey, h]

@[simp] theorem eraseKey_nil (k : Nat) : eraseKey k ([] : List (Nat × α)) = [] := rfl

theorem eraseKey_cons (k : Nat) (p : Nat × α) (rest : List (Nat × α)) :
    eraseKey k (p :: rest) =
      if p.1 = k then eraseKey k rest else p :: eraseKey k rest := by
  by_cases h : p.1 = k <;> simp [eraseKey, h]

theorem lookupKey_isSome_iff {k : Nat} {l : List (Nat × α)} :
    (lookupKey k l).isSome = true ↔ k ∈ keysOf l := by
  induction l with
  | nil => simp
  | cons p rest ih =>
    rw [lookupKey_cons, keysOf_cons]
    by_cases h : p.1 = k
    · simp [h]
    · rw [if_neg h, List.mem_cons, ih]
      constructor
      · exact Or.inr
      · rintro (hk | hm)
        · exact absurd hk.symm h
        · exact hm

theorem mem_of_lookupKey_eq_some {k : Nat} {v : α} {l : List (Nat × α)}
    (h : lookupKey k l = some v) : (k, v) ∈ l := by
  induction l with
  | nil => simp at h
  | cons p rest ih =>
    rw [lookupKey_cons] at h
    by_cases hk : p.1 = k
    · rw [if_pos hk] at h
      cases p with
      | mk a b =>
        cases h
        cases hk
        exact List.mem_cons_self _ _
    · rw [if_neg hk] at h
      exact List.mem_cons_of_mem _ (ih h)

theorem lookupKey_eq_some_of_mem {k : Nat} {v : α} {l : List (Nat × α)}
    (hnd : (keysOf l).Nodup) (hm : (k, v) ∈ l) : lookupKey k l = some v := by
  induction l with
  | nil => simp at hm
  | cons p rest ih =>
    rw [keysOf_cons, List.nodup_cons] at hnd
    rw [lookupKey_cons]
    rcases List.mem_cons.mp hm with h | h
    · cases h
      simp
    · by_cases hk : p.1 = k
      · exfalso
        apply hnd.1
        rw [hk]
        exact List.mem_map_of_mem Prod.fst h
      · rw [if_neg hk]
        exact ih hnd.2 h

theorem keysOf_updKey (k : Nat) (f : α → α) (l : List (Nat × α)) :
    keysOf (updKey k f l) = keysOf l := by
  induction l with
  | nil => rfl
  | cons p rest ih =>
    rw [updKey_cons]
    by_cases h : p.1 = k <;> simp [h, ih]

theorem lookupKey_updKey (k j : Nat) (f : α → α) (l : List (Nat × α)) :
    lookupKey j (updKey k f l) =
      if j = k then (lookupKey j l).map f else lookupKey j l := by
  induction l with
  | nil => by_cases h : j = k <;> simp [h]
  | cons p rest ih =>
    rw [updKey_cons, lookupKey_cons, lookupKey_cons]
    by_cases hpk : p.1 = k
    · by_cases hpj : p.1 = j
      · have hjk : j = k := hpj ▸ hpk
        simp [hpk, hpj, hjk]
      · simp only [if_pos hpk, if_neg hpj]
        rw [ih]
    · by_cases hpj : p.1 = j
      · have hjk : ¬ j = k := fun h => hpk ((hpj ▸ h : p.1 = k))
        simp [hpk, hpj, hjk]
      · simp only [if_neg hpk, if_neg hpj]
        rw [ih]

theorem mem_updKey_of_mem {k : Nat} {f : α → α} {l : List (Nat × α)} {q : Nat × α}
    (hm : q ∈ l) : (if q.1 = k then (q.1, f q.2) else q) ∈ updKey k f l := by
  induction l with
  | nil => simp at hm
  | cons p rest ih =>
    rw [updKey_cons]
    rcases List.mem_cons.mp hm with h | h
    · cases h
      exact List.mem_cons_self _ _
    · exact List.mem_cons_of_mem _ (ih h)

theorem keysOf_eraseKey (k : Nat) (l : List (Nat × α)) :
    keysOf (eraseKey k l) = (keysOf l).filter (fun j => j ≠ k) := by
  induction l with
  | nil => rfl
  | cons p rest ih =>
    rw [eraseKey_cons, keysOf_cons, List.filter_cons]
    by_cases h : p.1 = k <;> simp [h, ih]

theorem mem_eraseKey_iff {k : Nat} {l : List (Nat × α)} {q : Nat × α} :
    q ∈ eraseKey k l ↔ q ∈ l ∧ q.1 ≠ k := by
  simp [eraseKey, List.mem_filter]

theorem lookupKey_eraseKey (k j : Nat) (l : List (Nat × α)) :
    lookupKey j (eraseKey k l) = if j = k then none else lookupKey j l := by
  induction l with
  | nil => by_cases h : j = k <;> simp [h]
  | cons p rest ih =>
    rw [eraseKey_cons]
    by_cases hpk : p.1 = k
    · rw [if_pos hpk, ih, lookupKey_cons]
      by_cases hjk : j = k
      · simp only [if_pos hjk]
      · rw [if_neg hjk, if_neg hjk, if_neg (fun h : p.1 = j => hjk ((h ▸ hpk : j = k)))]
    · rw [if_neg hpk, lookupKey_cons, lookupKey_cons, ih]
      by_cases hpj : p.1 = j
      · have hjk : ¬ j = k := fun h => hpk ((hpj ▸ h : p.1 = k))
        simp [hpj, hjk]
      · by_cases hjk : j = k <;> simp [hpj, hjk, hpk]

/-! ## Node primitives (`GenNode`, §4.2)

`addOutEdge`/`addInEdge`/`removeOutEdge`/`removeInEdge` are declared in
`src/GTpo/src/gtpoGenNode.h` (lines 109-128) with their semantics in the
doc comments; their bodies live in `gtpoGenNode.hpp`, which is not part
of the sources, so they are modelled from the spec and from those doc
comments.  The destructor (`~GenNode`, lines 82-89) is concrete source
code and is embedded as `destructNode`. -/

/-- Modelled from the spec: `GenNode::addOutEdge` (body in the missing
`gtpoGenNode.hpp`).  Inserts `eid` in this node's out-edge list, caches
the edge's destination in the out-neighbour cache, and — per the header
doc comment — if the edge's source node differs from this node it is set
to this node.  `selfId` is the id of `this`.  The call never fails. -/
def NodeRec.addOutEdge (n : NodeRec) (selfId : Nat) (eid : Nat) (e : EdgeRec) :
    NodeRec × EdgeRec :=
  ({ n with outEdges := n.outEdges ++ [eid], outNodes := n.outNodes ++ [e.dst] },
   if e.src = selfId then e else { e with src := selfId })

/-- Modelled from the spec: `GenNode::addInEdge` (body in the missing
`gtpoGenNode.hpp`).  Inserts `eid` in this node's in-edge list, caches
the edge's source in the in-neighbour cache, and — per the header doc
comment — if the edge's destination differs from this node it is
automatically set to this node. -/
def NodeRec.addInEdge (n : NodeRec) (selfId : Nat) (eid : Nat) (e : EdgeRec) :
    NodeRec × EdgeRec :=
  ({ n with inEdges := n.inEdges ++ [eid], inNodes := n.inNodes ++ [e.src] },
   if e.dst = selfId then e else { e with dst := selfId })

/-- Unchecked removal of an out-edge and its cached destination; shared
by `removeOutEdge` and the graph's edge-removal path. -/
def NodeRec.eraseOutEdge (n : NodeRec) (eid : Nat) (dst : Nat) : NodeRec :=
  { n with outEdges := n.outEdges.erase eid, outNodes := n.outNodes.erase dst }

/-- Unchecked removal of an in-edge and its cached source. -/
def NodeRec.eraseInEdge (n : NodeRec) (eid : Nat) (src : Nat) : NodeRec :=
  { n with inEdges := n.inEdges.erase eid, inNodes := n.inNodes.erase src }

/-- Modelled from the spec: `GenNode::removeOutEdge` (body in the
missing `gtpoGenNode.hpp`).  Fails with `badTopology`
(`gtpo::bad_topology_error`) when the edge is not currently in the
out-edge set; otherwise removes it together with its cached
destination. -/
def NodeRec.removeOutEdge (n : NodeRec) (eid : Nat) (e : EdgeRec) :
    Except GErr NodeRec :=
  if eid ∈ n.outEdges then .ok (n.eraseOutEdge eid e.dst)
  else .error .badTopology

/-- Modelled from the spec: `GenNode::removeInEdge` (body in the missing
`gtpoGenNode.hpp`).  Fails with `badTopology` when the edge is not
currently in the in-edge set; otherwise removes it together with its
cached source. -/
def NodeRec.removeInEdge (n : NodeRec) (eid : Nat) (e : EdgeRec) :
    Except GErr NodeRec :=
  if eid ∈ n.inEdges then .ok (n.eraseInEdge eid e.src)
  else .error .badTopology

/-- `GenNode::~GenNode` (gtpoGenNode.h lines 82-89, concrete source):
clears the four adjacency containers, emits a warning on `std::cerr`
exactly when the graph back-reference is still set, then nulls the
back-reference.  Returns the final record and whether the warning was
emitted. -/
def destructNode (n : NodeRec) : NodeRec × Bool :=
  let cleared : NodeRec :=
    { n with inEdges := [], outEdges := [], inNodes := [], outNodes := [] }
  let warn : Bool := cleared.graph.isSome
  ({ cleared with graph := none }, warn)

/-! ## Graph operations (`GenGraph`, §4.1)

The GenGraph implementation (`gtpoGenGraph.h/.hpp`) is not among the
sources; every operation below is modelled from the spec, §4.1. -/

/-- `h` is a node handle owned by `g`: right owner id and a live node. -/
def ownsNode (g : Graph) (h : Handle) : Prop :=
  h.owner = g.gid ∧ (lookupKey h.id g.nodes).isSome = true

/-- `h` is an edge handle owned by `g`. -/
def ownsEdge (g : Graph) (h : Handle) : Prop :=
  h.owner = g.gid ∧ (lookupKey h.id g.edges).isSome = true

/-- `h` is a group handle owned by `g`. -/
def ownsGroup (g : Graph) (h : Handle) : Prop :=
  h.owner = g.gid ∧ (lookupKey h.id g.groups).isSome = true

instance (g : Graph) (h : Handle) : Decidable (ownsNode g h) := by
  unfold ownsNode; infer_instance

instance (g : Graph) (h : Handle) : Decidable (ownsEdge g h) := by
  unfold ownsEdge; infer_instance

instance (g : Graph) (h : Handle) : Decidable (ownsGroup g h) := by
  unfold ownsGroup; infer_instance

/-- Modelled from the spec: `GenGraph::insertNode` (§4.1).  Creates and
takes ownership of a fresh detached node, sets its graph back-reference,
adds it to the root-node set, fires "node inserted".  Always succeeds. -/
def insertNode (g : Graph) : Graph × Handle × List Notif :=
  let nid := g.nextId
  let n : NodeRec := { NodeRec.empty with graph := some g.gid }
  ({ g with nodes := g.nodes ++ [(nid, n)],
            rootNodes := g.rootNodes ++ [nid],
            nextId := nid + 1 },
   ⟨g.gid, nid⟩, [.nodeInserted nid])

/-- Modelled from the spec: `GenGraph::createEdge` (§4.1).  Fails with
`unknownEntity` when either endpoint handle is not owned by this graph.
Otherwise registers the new edge as an out-edge of the source and an
in-edge of the destination (updating both neighbour caches through the
node primitives), removes the destination from the root set if present,
and fires "edge inserted". -/
def createEdge (g : Graph) (a b : Handle) (w : Rat) :
    Except GErr (Graph × Handle × List Notif) :=
  if ownsNode g a ∧ ownsNode g b then
    let eid := g.nextId
    let e : EdgeRec := { src := a.id, dst := b.id, weight := w }
    let nodes1 := updKey a.id (fun n => (n.addOutEdge a.id eid e).1) g.nodes
    let nodes2 := updKey b.id (fun n => (n.addInEdge b.id eid e).1) nodes1
    .ok ({ g with nodes := nodes2,
                  edges := g.edges ++ [(eid, e)],
                  rootNodes := g.rootNodes.filter (fun r => r ≠ b.id),
                  nextId := eid + 1 },
         ⟨g.gid, eid⟩, [.edgeInserted eid])
  else .error .unknownEntity

/-- Whether the node stored under `dst` has an empty in-edge list. -/
def dstEmptyAfter (nodes : List (Nat × NodeRec)) (dst : Nat) : Bool :=
  match lookupKey dst nodes with
  | some n => n.inEdges.isEmpty
  | none => false

/-- Modelled from the spec: the unchecked edge-removal core shared by
`removeEdge` and `removeNode` (§4.1).  Deregisters the edge from its
source's out-edges and its destination's in-edges (and the neighbour
caches), re-adds the destination to the root set when its in-edge count
drops to zero, and fires "edge removed".  A no-op when the edge id is
not owned. -/
def removeEdgeCore (g : Graph) (eid : Nat) : Graph × List Notif :=
  match lookupKey eid g.edges with
  | none => (g, [])
  | some e =>
    let nodes2 := updKey e.dst (fun n => n.eraseInEdge eid e.src)
      (updKey e.src (fun n => n.eraseOutEdge eid e.dst) g.nodes)
    ({ g with nodes := nodes2,
              edges := eraseKey eid g.edges,
              rootNodes := if dstEmptyAfter nodes2 e.dst
                           then g.rootNodes ++ [e.dst] else g.rootNodes },
     [.edgeRemoved eid])

/-- Modelled from the spec: `GenGraph::removeEdge` (§4.1).  Fails with
`unknownEntity` when the handle is not owned by this graph. -/
def removeEdge (g : Graph) (h : Handle) : Except GErr (Graph × List Notif) :=
  if ownsEdge g h then .ok (removeEdgeCore g h.id)
  else .error .unknownEntity

/-- Remove the listed edges in order, accumulating the notifications;
already-removed ids (a self-loop met a second time) are skipped. -/
def removeEdges : Graph → List Nat → Graph × List Notif
  | g, [] => (g, [])
  | g, eid :: rest =>
    let r := removeEdgeCore g eid
    let r2 := removeEdges r.1 rest
    (r2.1, r.2 ++ r2.2)

/-- Modelled from the spec: the body of `GenGraph::removeNode` (§4.1)
once ownership is established.  First removes every edge incident to the
node (in-edges then out-edges), removes the node from its group if
grouped, removes it from the owning collection and the root set, then
fires "node removed". -/
def removeNodeCore (g : Graph) (nid : Nat) (n : NodeRec) : Graph × List Notif :=
  let r := removeEdges g (n.inEdges ++ n.outEdges)
  let g1 := r.1
  let g2 :=
    match n.group with
    | some a =>
      { g1 with groups := updKey a (fun grp =>
          { grp with nodes := grp.nodes.filter (fun m => m ≠ nid) }) g1.groups }
    | none => g1
  ({ g2 with nodes := eraseKey nid g2.nodes,
             rootNodes := g2.rootNodes.filter (fun r => r ≠ nid) },
   r.2 ++ [.nodeRemoved nid])

/-- Modelled from the spec: `GenGraph::removeNode` (§4.1).  Fails with
`unknownEntity` when the handle is not owned by this graph. -/
def removeNode (g : Graph) (h : Handle) : Except GErr (Graph × List Notif) :=
  if h.owner = g.gid then
    match lookupKey h.id g.nodes with
    | some n => .ok (removeNodeCore g h.id n)
    | none => .error .unknownEntity
  else .error .unknownEntity

/-- Modelled from the spec: `GenGraph::insertGroup` (§4.1).  Creates an
empty group and fires "group inserted".  Always succeeds. -/
def insertGroup (g : Graph) : Graph × Handle × List Notif :=
  let gid' := g.nextId
  ({ g with groups := g.groups ++ [(gid', { nodes := [] })], nextId := gid' + 1 },
   ⟨g.gid, gid'⟩, [.groupInserted gid'])

/-- Modelled from the spec: `GenGraph::groupNode` (§4.1).  Fails with
`unknownEntity` when either handle is foreign.  A node already in a
different group is implicitly ungrouped first (with that group's
observers notified once); grouping a node into the group it already
belongs to is a no-op.  The target group's observers are notified once
of the insertion and the node's group back-reference is set. -/
def groupNode (g : Graph) (nh gh : Handle) : Except GErr (Graph × List Notif) :=
  if ownsNode g nh ∧ ownsGroup g gh then
    match lookupKey nh.id g.nodes with
    | none => .error .unknownEntity
    | some n =>
      if n.group = some gh.id then .ok (g, [])
      else
        let r : List (Nat × GroupRec) × List Notif :=
          match n.group with
          | some a =>
            (updKey a (fun grp =>
               { grp with nodes := grp.nodes.filter (fun m => m ≠ nh.id) }) g.groups,
             [.groupMemberRemoved a nh.id])
          | none => (g.groups, [])
        let groups2 := updKey gh.id (fun grp =>
          { grp with nodes := grp.nodes ++ [nh.id] }) r.1
        let nodes2 := updKey nh.id (fun n => { n with group := some gh.id }) g.nodes
        .ok ({ g with nodes := nodes2, groups := groups2 },
             r.2 ++ [.groupMemberInserted gh.id nh.id])
  else .error .unknownEntity

/-- Modelled from the spec: `GenGraph::ungroupNode` (§4.1).  Fails with
`unknownEntity` when the handle is foreign; clears the node's group
back-reference and removes it from its group's member list, notifying
that group's observers once.  A no-op on an ungrouped node. -/
def ungroupNode (g : Graph) (nh : Handle) : Except GErr (Graph × List Notif) :=
  if ownsNode g nh then
    match lookupKey nh.id g.nodes with
    | none => .error .unknownEntity
    | some n =>
      match n.group with
      | none => .ok (g, [])
      | some a =>
        .ok ({ g with
                nodes := updKey nh.id (fun n => { n with group := none }) g.nodes,
                groups := updKey a (fun grp =>
                  { grp with nodes := grp.nodes.filter (fun m => m ≠ nh.id) }) g.groups },
             [.groupMemberRemoved a nh.id])
  else .error .unknownEntity

/-- Modelled from the spec: `GenGraph::removeGroup` (§4.1).  Fails with
`unknownEntity` when the handle is foreign; releases all member nodes
(clearing their group back-references), removes the group and fires
"group removed". -/
def removeGroup (g : Graph) (gh : Handle) : Except GErr (Graph × List Notif) :=
  if ownsGroup g gh then
    match lookupKey gh.id g.groups with
    | none => .error .unknownEntity
    | some grp =>
      let nodes2 := grp.nodes.foldl
        (fun ns m => updKey m (fun n => { n with group := none }) ns) g.nodes
      .ok ({ g with nodes := nodes2, groups := eraseKey gh.id g.groups },
           [.groupRemoved gh.id])
  else .error .unknownEntity

/-! ## Mutation sequences -/

/-- A graph mutation request, as issued by a caller of the §4.1 API. -/
inductive Op where
  | insertNode : Op
  | removeNode (h : Handle) : Op
  | createEdge (a b : Handle) (w : Rat) : Op
  | removeEdge (h : Handle) : Op
  | insertGroup : Op
  | removeGroup (h : Handle) : Op
  | groupNode (nh gh : Handle) : Op
  | ungroupNode (nh : Handle) : Op

/-- Apply one mutation; a failed mutation (`unknownEntity`) is a no-op
on the graph state. -/
def applyOp (g : Graph) : Op → Graph
  | .insertNode => (insertNode g).1
  | .removeNode h =>
    match removeNode g h with
    | .ok r => r.1
    | .error _ => g
  | .createEdge a b w =>
    match createEdge g a b w with
    | .ok r => r.1
    | .error _ => g
  | .removeEdge h =>
    match removeEdge g h with
    | .ok r => r.1
    | .error _ => g
  | .insertGroup => (insertGroup g).1
  | .removeGroup h =>
    match removeGroup g h with
    | .ok r => r.1
    | .error _ => g
  | .groupNode nh gh =>
    match groupNode g nh gh with
    | .ok r => r.1
    | .error _ => g
  | .ungroupNode nh =>
    match ungroupNode g nh with
    | .ok r => r.1
    | .error _ => g

/-- The graph obtained by running a mutation sequence on a fresh graph
with instance identity `gid`. -/
def applyOps (gid : Nat) (ops : List Op) : Graph :=
  ops.foldl applyOp (emptyGraph gid)

/-! ## Degree queries (gtpoGenNode.h lines 136-137) -/

/-- `GenNode::getInDegree`: the size of the in-edge container. -/
def NodeRec.getInDegree (n : NodeRec) : Nat := n.inEdges.length

/-- `GenNode::getOutDegree`: the size of the out-edge container. -/
def NodeRec.getOutDegree (n : NodeRec) : Nat := n.outEdges.length

/-- In-degree of node `nid` in graph `g` (0 for an unknown id). -/
def nodeInDegree (g : Graph) (nid : Nat) : Nat :=
  match lookupKey nid g.nodes with
  | some n => n.getInDegree
  | none => 0

/-- Out-degree of node `nid` in graph `g` (0 for an unknown id). -/
def nodeOutDegree (g : Graph) (nid : Nat) : Nat :=
  match lookupKey nid g.nodes with
  | some n => n.getOutDegree
  | none => 0

/-! ## The graph invariant (§3) -/

/-- The source of the edge stored under `eid` (default 0 when absent). -/
def edgeSrcD (es : List (Nat × EdgeRec)) (eid : Nat) : Nat :=
  match lookupKey eid es with
  | some e => e.src
  | none => 0

/-- The destination of the edge stored under `eid` (default 0 when
absent). -/
def edgeDstD (es : List (Nat × EdgeRec)) (eid : Nat) : Nat :=
  match lookupKey eid es with
  | some e => e.dst
  | none => 0

/-- The structural invariant of §3: distinct ids below the fresh-id
counter, node in/out edge sets that coincide exactly with the owned
edges having that node as destination/source, neighbour caches that are
multiset-equal to the endpoint lists of the edge sets, a root set that
is exactly the owned nodes with no in-edge, and mutually consistent
group membership. -/
structure Inv (g : Graph) : Prop where
  nodesKeysNodup : (keysOf g.nodes).Nodup
  edgesKeysNodup : (keysOf g.edges).Nodup
  groupsKeysNodup : (keysOf g.groups).Nodup
  rootsNodup : g.rootNodes.Nodup
  nodesLt : ∀ k ∈ keysOf g.nodes, k < g.nextId
  edgesLt : ∀ k ∈ keysOf g.edges, k < g.nextId
  groupsLt : ∀ k ∈ keysOf g.groups, k < g.nextId
  inEdgesNodup : ∀ nid n, lookupKey nid g.nodes = some n → n.inEdges.Nodup
  outEdgesNodup : ∀ nid n, lookupKey nid g.nodes = some n → n.outEdges.Nodup
  inEdgesCorrect : ∀ nid n, lookupKey nid g.nodes = some n →
    ∀ eid, eid ∈ n.inEdges ↔ ∃ e, lookupKey eid g.edges = some e ∧ e.dst = nid
  outEdgesCorrect : ∀ nid n, lookupKey nid g.nodes = some n →
    ∀ eid, eid ∈ n.outEdges ↔ ∃ e, lookupKey eid g.edges = some e ∧ e.src = nid
  inNodesCache : ∀ nid n, lookupKey nid g.nodes = some n →
    (n.inEdges.map (edgeSrcD g.edges)).Perm n.inNodes
  outNodesCache : ∀ nid n, lookupKey nid g.nodes = some n →
    (n.outEdges.map (edgeDstD g.edges)).Perm n.outNodes
  edgeEndpointsOwned : ∀ eid e, lookupKey eid g.edges = some e →
    (lookupKey e.src g.nodes).isSome = true ∧ (lookupKey e.dst g.nodes).isSome = true
  rootsCorrect : ∀ r, r ∈ g.rootNodes ↔
    ∃ n, lookupKey r g.nodes = some n ∧ n.inEdges = []
  groupRefCorrect : ∀ nid n, lookupKey nid g.nodes = some n →
    ∀ a, n.group = some a →
      ∃ grp, lookupKey a g.groups = some grp ∧ nid ∈ grp.nodes
  membersCorrect : ∀ a grp, lookupKey a g.groups = some grp →
    ∀ nid ∈ grp.nodes, ∃ n, lookupKey nid g.nodes = some n ∧ n.group = some a
  membersNodup : ∀ a grp, lookupKey a g.groups = some grp → grp.nodes.Nodup

theorem inv_emptyGraph (gid : Nat) : Inv (emptyGraph gid) := by
  constructor <;> simp [emptyGraph]

/-! ## More association-list lemmas -/

theorem lookupKey_append (k : Nat) (l₁ l₂ : List (Nat × α)) :
    lookupKey k (l₁ ++ l₂) =
      match lookupKey k l₁ with
      | some v => some v
      | none => lookupKey k l₂ := by
  induction l₁ with
  | nil => simp
  | cons p rest ih =>
    rw [List.cons_append, lookupKey_cons, lookupKey_cons]
    by_cases h : p.1 = k
    · simp [h]
    · simp only [if_neg h]
      exact ih

theorem lookupKey_append_of_not_mem {k : Nat} {l₁ : List (Nat × α)}
    (h : k ∉ keysOf l₁) (l₂ : List (Nat × α)) :
    lookupKey k (l₁ ++ l₂) = lookupKey k l₂ := by
  rw [lookupKey_append]
  have : lookupKey k l₁ = none := by
    cases hl : lookupKey k l₁ with
    | none => rfl
    | some v =>
      exact absurd (lookupKey_isSome_iff.mp (by rw [hl]; rfl)) h
  rw [this]

theorem lookupKey_eq_none_of_not_mem {k : Nat} {l : List (Nat × α)}
    (h : k ∉ keysOf l) : lookupKey k l = none := by
  cases hl : lookupKey k l with
  | none => rfl
  | some v => exact absurd (lookupKey_isSome_iff.mp (by rw [hl]; rfl)) h

theorem keysOf_append (l₁ l₂ : List (Nat × α)) :
    keysOf (l₁ ++ l₂) = keysOf l₁ ++ keysOf l₂ :=
  List.map_append _ _ _

theorem eraseKey_append (k : Nat) (l₁ l₂ : List (Nat × α)) :
    eraseKey k (l₁ ++ l₂) = eraseKey k l₁ ++ eraseKey k l₂ :=
  List.filter_append _ _

theorem eraseKey_of_not_mem {k : Nat} {l : List (Nat × α)}
    (h : k ∉ keysOf l) : eraseKey k l = l := by
  induction l with
  | nil => rfl
  | cons p rest ih =>
    rw [keysOf_cons, List.mem_cons] at h
    push_neg at h
    rw [eraseKey_cons, if_neg (fun he => h.1 he.symm), ih h.2]

/-! ## Invariant preservation -/

theorem inv_insertNode {g : Graph} (hinv : Inv g) : Inv (insertNode g).1 := by
  obtain ⟨knd, ked, kgd, rnd, nlt, elt, glt, ind, ond, icc, occ, inc, onc, epo, rc, grc,
    mc, mnd⟩ := hinv
  have hfreshN : g.nextId ∉ keysOf g.nodes := fun h => lt_irrefl _ (nlt _ h)
  have hfreshR : g.nextId ∉ g.rootNodes := by
    intro h
    obtain ⟨n, hn, -⟩ := (rc _).mp h
    exact hfreshN (lookupKey_isSome_iff.mp (by rw [hn]; rfl))
  have hnodes : (insertNode g).1.nodes
      = g.nodes ++ [(g.nextId, { NodeRec.empty with graph := some g.gid })] := rfl
  have hedges : (insertNode g).1.edges = g.edges := rfl
  have hgroups : (insertNode g).1.groups = g.groups := rfl
  have hroots : (insertNode g).1.rootNodes = g.rootNodes ++ [g.nextId] := rfl
  have hnext : (insertNode g).1.nextId = g.nextId + 1 := rfl
  have hcase : ∀ k n, lookupKey k (insertNode g).1.nodes = some n →
      lookupKey k g.nodes = some n ∨
        (k = g.nextId ∧ n = { NodeRec.empty with graph := some g.gid }) := by
    intro k n h
    rw [hnodes, lookupKey_append] at h
    cases hl : lookupKey k g.nodes with
    | some v =>
      rw [hl] at h
      exact Or.inl h
    | none =>
      rw [hl] at h
      have h' : lookupKey k [(g.nextId, ({ NodeRec.empty with graph := some g.gid } : NodeRec))]
          = some n := h
      rw [lookupKey_cons] at h'
      by_cases hk : g.nextId = k
      · simp only [if_pos hk] at h'
        injection h' with h'
        exact Or.inr ⟨hk.symm, h'.symm⟩
      · simp only [if_neg hk] at h'
        simp at h'
  have hold : ∀ k (n : NodeRec), lookupKey k g.nodes = some n →
      lookupKey k (insertNode g).1.nodes = some n := by
    intro k n h
    rw [hnodes, lookupKey_append, h]
  have hnew : lookupKey g.nextId (insertNode g).1.nodes
      = some { NodeRec.empty with graph := some g.gid } := by
    rw [hnodes, lookupKey_append, lookupKey_eq_none_of_not_mem hfreshN, lookupKey_cons]
    simp
  have hnoEdgeAt : ∀ (e : EdgeRec) eid, lookupKey eid g.edges = some e →
      e.dst ≠ g.nextId ∧ e.src ≠ g.nextId := by
    intro e eid he
    obtain ⟨hs, hd⟩ := epo _ _ he
    exact ⟨fun hh => hfreshN (hh ▸ lookupKey_isSome_iff.mp hd),
           fun hh => hfreshN (hh ▸ lookupKey_isSome_iff.mp hs)⟩
  refine ⟨?_, ?_, ?_, ?_, ?_, ?_, ?_, ?_, ?_, ?_, ?_, ?_, ?_, ?_, ?_, ?_, ?_, ?_⟩
  · rw [hnodes, keysOf_append]
    refine knd.append (List.nodup_singleton _) ?_
    intro a ha hb
    rw [keysOf_cons, keysOf_nil] at hb
    rcases List.mem_cons.mp hb with h | h
    · have h2 : a = g.nextId := h
      exact hfreshN (h2 ▸ ha)
    · simp at h
  · rw [hedges]; exact ked
  · rw [hgroups]; exact kgd
  · rw [hroots]
    refine rnd.append (List.nodup_singleton _) ?_
    intro a ha hb
    rcases List.mem_cons.mp hb with h | h
    · exact hfreshR (h ▸ ha)
    · simp at h
  · intro k hk
    rw [hnodes, keysOf_append] at hk
    rw [hnext]
    rcases List.mem_append.mp hk with h | h
    · exact Nat.lt_succ_of_lt (nlt _ h)
    · rcases List.mem_cons.mp h with h | h
      · exact h ▸ Nat.lt_succ_self _
      · simp at h
  · intro k hk
    rw [hedges] at hk
    rw [hnext]
    exact Nat.lt_succ_of_lt (elt _ hk)
  · intro k hk
    rw [hgroups] at hk
    rw [hnext]
    exact Nat.lt_succ_of_lt (glt _ hk)
  · intro nid n h
    rcases hcase _ _ h with h' | ⟨-, h'⟩
    · exact ind _ _ h'
    · rw [h']; exact List.nodup_nil
  · intro nid n h
    rcases hcase _ _ h with h' | ⟨-, h'⟩
    · exact ond _ _ h'
    · rw [h']; exact List.nodup_nil
  · intro nid n h eid
    rw [hedges]
    rcases hcase _ _ h with h' | ⟨hk, h'⟩
    · exact icc _ _ h' eid
    · rw [h']
      simp only [NodeRec.empty, List.not_mem_nil, false_iff]
      rintro ⟨e, he, hdst⟩
      exact (hnoEdgeAt e eid he).1 (hdst.trans hk)
  · intro nid n h eid
    rw [hedges]
    rcases hcase _ _ h with h' | ⟨hk, h'⟩
    · exact occ _ _ h' eid
    · rw [h']
      simp only [NodeRec.empty, List.not_mem_nil, false_iff]
      rintro ⟨e, he, hsrc⟩
      exact (hnoEdgeAt e eid he).2 (hsrc.trans hk)
  · intro nid n h
    rw [hedges]
    rcases hcase _ _ h with h' | ⟨-, h'⟩
    · exact inc _ _ h'
    · rw [h']; simp [NodeRec.empty]
  · intro nid n h
    rw [hedges]
    rcases hcase _ _ h with h' | ⟨-, h'⟩
    · exact onc _ _ h'
    · rw [h']; simp [NodeRec.empty]
  · intro eid e he
    rw [hedges] at he
    obtain ⟨hs, hd⟩ := epo _ _ he
    constructor
    · obtain ⟨v, hv⟩ := Option.isSome_iff_exists.mp hs
      rw [hold _ _ hv]; rfl
    · obtain ⟨v, hv⟩ := Option.isSome_iff_exists.mp hd
      rw [hold _ _ hv]; rfl
  · intro r
    rw [hroots]
    constructor
    · intro hr
      rcases List.mem_append.mp hr with h | h
      · obtain ⟨n, hn, hni⟩ := (rc _).mp h
        exact ⟨n, hold _ _ hn, hni⟩
      · rcases List.mem_cons.mp h with h | h
        · subst h
          exact ⟨_, hnew, rfl⟩
        · simp at h
    · rintro ⟨n, hn, hni⟩
      rcases hcase _ _ hn with h' | ⟨hk, -⟩
      · exact List.mem_append.mpr (Or.inl ((rc _).mpr ⟨n, h', hni⟩))
      · subst hk
        exact List.mem_append.mpr (Or.inr (List.mem_cons_self _ _))
  · intro nid n h a ha
    rw [hgroups]
    rcases hcase _ _ h with h' | ⟨-, h'⟩
    · exact grc _ _ h' _ ha
    · rw [h'] at ha
      simp [NodeRec.empty] at ha
  · intro a grp hgr nid hnid
    rw [hgroups] at hgr
    obtain ⟨n, hn, hgn⟩ := mc _ _ hgr _ hnid
    exact ⟨n, hold _ _ hn, hgn⟩
  · intro a grp hgr
    rw [hgroups] at hgr
    exact mnd _ _ hgr

theorem inv_createEdge {g : Graph} {a b : Handle} {w : Rat}
    {r : Graph × Handle × List Notif}
    (hinv : Inv g) (h : createEdge g a b w = .ok r) : Inv r.1 := by
  by_cases hc : ownsNode g a ∧ ownsNode g b
  case neg =>
    rw [createEdge, if_neg hc] at h
    cases h
  case pos =>
  rw [createEdge, if_pos hc] at h
  injection h with h
  obtain ⟨knd, ked, kgd, rnd, nlt, elt, glt, ind, ond, icc, occ, inc, onc, epo, rc, grc,
    mc, mnd⟩ := hinv
  obtain ⟨⟨hao, hai⟩, ⟨hbo, hbi⟩⟩ := hc
  have hr : r.1 = { g with
      nodes := updKey b.id
        (fun n => (n.addInEdge b.id g.nextId ⟨a.id, b.id, w⟩).1)
        (updKey a.id (fun n => (n.addOutEdge a.id g.nextId ⟨a.id, b.id, w⟩).1) g.nodes)
      edges := g.edges ++ [(g.nextId, ⟨a.id, b.id, w⟩)]
      rootNodes := g.rootNodes.filter (fun x => x ≠ b.id)
      nextId := g.nextId + 1 } := by
    rw [← h]
  rw [hr]
  set N2 := updKey b.id
      (fun n => (n.addInEdge b.id g.nextId ⟨a.id, b.id, w⟩).1)
      (updKey a.id (fun n => (n.addOutEdge a.id g.nextId ⟨a.id, b.id, w⟩).1) g.nodes)
    with hN2
  set E2 := g.edges ++ [(g.nextId, (⟨a.id, b.id, w⟩ : EdgeRec))] with hE2
  have hgn : ({ g with
      nodes := N2
      edges := E2
      rootNodes := g.rootNodes.filter (fun x => x ≠ b.id)
      nextId := g.nextId + 1 } : Graph).nodes = N2 := rfl
  have hge : ({ g with
      nodes := N2
      edges := E2
      rootNodes := g.rootNodes.filter (fun x => x ≠ b.id)
      nextId := g.nextId + 1 } : Graph).edges = E2 := rfl
  have hgg : ({ g with
      nodes := N2
      edges := E2
      rootNodes := g.rootNodes.filter (fun x => x ≠ b.id)
      nextId := g.nextId + 1 } : Graph).groups = g.groups := rfl
  have hgr : ({ g with
      nodes := N2
      edges := E2
      rootNodes := g.rootNodes.filter (fun x => x ≠ b.id)
      nextId := g.nextId + 1 } : Graph).rootNodes
      = g.rootNodes.filter (fun x => x ≠ b.id) := rfl
  have hgx : ({ g with
      nodes := N2
      edges := E2
      rootNodes := g.rootNodes.filter (fun x => x ≠ b.id)
      nextId := g.nextId + 1 } : Graph).nextId = g.nextId + 1 := rfl
  have hEfresh : lookupKey g.nextId g.edges = none := by
    apply lookupKey_eq_none_of_not_mem
    intro hmem
    exact lt_irrefl _ (elt _ hmem)
  have hlookE_new : lookupKey g.nextId E2 = some ⟨a.id, b.id, w⟩ := by
    rw [hE2, lookupKey_append, hEfresh, lookupKey_cons]
    simp
  have hlookE_old : ∀ j (e' : EdgeRec), lookupKey j g.edges = some e' →
      lookupKey j E2 = some e' := by
    intro j e' hj
    rw [hE2, lookupKey_append, hj]
  have hchar_e : ∀ j e', lookupKey j E2 = some e' →
      lookupKey j g.edges = some e' ∨ (j = g.nextId ∧ e' = ⟨a.id, b.id, w⟩) := by
    intro j e' hj
    rw [hE2, lookupKey_append] at hj
    cases hl : lookupKey j g.edges with
    | some v =>
      rw [hl] at hj
      exact Or.inl hj
    | none =>
      rw [hl] at hj
      have hj' : lookupKey j [(g.nextId, (⟨a.id, b.id, w⟩ : EdgeRec))] = some e' := hj
      rw [lookupKey_cons] at hj'
      by_cases hk : g.nextId = j
      · simp only [if_pos hk] at hj'
        injection hj' with hj'
        exact Or.inr ⟨hk.symm, hj'.symm⟩
      · simp only [if_neg hk] at hj'
        simp at hj'
  have hsrcD_old : ∀ eid (e' : EdgeRec), lookupKey eid g.edges = some e' →
      edgeSrcD E2 eid = edgeSrcD g.edges eid := by
    intro eid e' he
    rw [edgeSrcD, edgeSrcD, hlookE_old _ _ he, he]
  have hdstD_old : ∀ eid (e' : EdgeRec), lookupKey eid g.edges = some e' →
      edgeDstD E2 eid = edgeDstD g.edges eid := by
    intro eid e' he
    rw [edgeDstD, edgeDstD, hlookE_old _ _ he, he]
  have hchar : ∀ k n, lookupKey k N2 = some n →
      ∃ n₀, lookupKey k g.nodes = some n₀ ∧
        n.inEdges = n₀.inEdges ++ (if k = b.id then [g.nextId] else []) ∧
        n.outEdges = n₀.outEdges ++ (if k = a.id then [g.nextId] else []) ∧
        n.inNodes = n₀.inNodes ++ (if k = b.id then [a.id] else []) ∧
        n.outNodes = n₀.outNodes ++ (if k = a.id then [b.id] else []) ∧
        n.group = n₀.group := by
    intro k n hk
    rw [hN2, lookupKey_updKey, lookupKey_updKey] at hk
    by_cases hkb : k = b.id <;> by_cases hka : k = a.id
    · simp only [if_pos hkb, if_pos hka] at hk
      cases hl : lookupKey k g.nodes with
      | some v =>
        rw [hl] at hk
        simp only [Option.map_some'] at hk
        injection hk with hk
        refine ⟨v, rfl, ?_⟩
        simp only [if_pos hkb, if_pos hka]
        rw [← hk]
        simp [NodeRec.addInEdge, NodeRec.addOutEdge]
      | none =>
        rw [hl] at hk
        simp at hk
    · simp only [if_pos hkb, if_neg hka] at hk
      cases hl : lookupKey k g.nodes with
      | some v =>
        rw [hl] at hk
        simp only [Option.map_some'] at hk
        injection hk with hk
        refine ⟨v, rfl, ?_⟩
        simp only [if_pos hkb, if_neg hka]
        rw [← hk]
        simp [NodeRec.addInEdge]
      | none =>
        rw [hl] at hk
        simp at hk
    · simp only [if_neg hkb, if_pos hka] at hk
      cases hl : lookupKey k g.nodes with
      | some v =>
        rw [hl] at hk
        simp only [Option.map_some'] at hk
        injection hk with hk
        refine ⟨v, rfl, ?_⟩
        simp only [if_neg hkb, if_pos hka]
        rw [← hk]
        simp [NodeRec.addOutEdge]
      | none =>
        rw [hl] at hk
        simp at hk
    · simp only [if_neg hkb, if_neg hka] at hk
      refine ⟨n, hk, ?_⟩
      simp only [if_neg hkb, if_neg hka]
      simp
  have hforw : ∀ k n₀, lookupKey k g.nodes = some n₀ →
      ∃ n, lookupKey k N2 = some n ∧
        n.inEdges = n₀.inEdges ++ (if k = b.id then [g.nextId] else []) ∧
        n.outEdges = n₀.outEdges ++ (if k = a.id then [g.nextId] else []) ∧
        n.inNodes = n₀.inNodes ++ (if k = b.id then [a.id] else []) ∧
        n.outNodes = n₀.outNodes ++ (if k = a.id then [b.id] else []) ∧
        n.group = n₀.group := by
    intro k n₀ hk
    rw [hN2, lookupKey_updKey, lookupKey_updKey, hk]
    by_cases hkb : k = b.id <;> by_cases hka : k = a.id
    · simp only [if_pos hkb, if_pos hka, Option.map_some']
      refine ⟨_, rfl, ?_⟩
      simp [NodeRec.addInEdge, NodeRec.addOutEdge]
    · simp only [if_pos hkb, if_neg hka, Option.map_some']
      refine ⟨_, rfl, ?_⟩
      simp [NodeRec.addInEdge]
    · simp only [if_neg hkb, if_pos hka, Option.map_some']
      refine ⟨_, rfl, ?_⟩
      simp [NodeRec.addOutEdge]
    · simp only [if_neg hkb, if_neg hka]
      refine ⟨_, rfl, ?_⟩
      simp
  have hsome : ∀ k, (lookupKey k N2).isSome = (lookupKey k g.nodes).isSome := by
    intro k
    rw [hN2, lookupKey_updKey, lookupKey_updKey]
    by_cases hkb : k = b.id <;> by_cases hka : k = a.id
    · simp only [if_pos hkb, if_pos hka]
      cases lookupKey k g.nodes <;> simp
    · simp only [if_pos hkb, if_neg hka]
      cases lookupKey k g.nodes <;> simp
    · simp only [if_neg hkb, if_pos hka]
      cases lookupKey k g.nodes <;> simp
    · simp only [if_neg hkb, if_neg hka]
  have hfreshIn : ∀ k n₀, lookupKey k g.nodes = some n₀ → g.nextId ∉ n₀.inEdges := by
    intro k n₀ hk hmem
    obtain ⟨e', he', -⟩ := (icc _ _ hk _).mp hmem
    rw [hEfresh] at he'
    cases he'
  have hfreshOut : ∀ k n₀, lookupKey k g.nodes = some n₀ → g.nextId ∉ n₀.outEdges := by
    intro k n₀ hk hmem
    obtain ⟨e', he', -⟩ := (occ _ _ hk _).mp hmem
    rw [hEfresh] at he'
    cases he'
  refine ⟨?_, ?_, ?_, ?_, ?_, ?_, ?_, ?_, ?_, ?_, ?_, ?_, ?_, ?_, ?_, ?_, ?_, ?_⟩
  · rw [hgn, hN2, keysOf_updKey, keysOf_updKey]
    exact knd
  · rw [hge, hE2, keysOf_append]
    refine ked.append (List.nodup_singleton _) ?_
    intro x hx hx2
    rcases List.mem_cons.mp hx2 with h2 | h2
    · have h3 : x = g.nextId := h2
      exact lt_irrefl _ (elt _ (h3 ▸ hx))
    · simp at h2
  · rw [hgg]; exact kgd
  · rw [hgr]; exact rnd.filter _
  · intro k hk
    rw [hgn, hN2, keysOf_updKey, keysOf_updKey] at hk
    rw [hgx]
    exact Nat.lt_succ_of_lt (nlt _ hk)
  · intro k hk
    rw [hge, hE2, keysOf_append] at hk
    rw [hgx]
    rcases List.mem_append.mp hk with h2 | h2
    · exact Nat.lt_succ_of_lt (elt _ h2)
    · rcases List.mem_cons.mp h2 with h3 | h3
      · have h4 : k = g.nextId := h3
        exact h4 ▸ Nat.lt_succ_self _
      · simp at h3
  · intro k hk
    rw [hgg] at hk
    rw [hgx]
    exact Nat.lt_succ_of_lt (glt _ hk)
  · intro nid n hn
    rw [hgn] at hn
    obtain ⟨n₀, hn₀, hie, -, -, -, -⟩ := hchar _ _ hn
    rw [hie]
    by_cases hkb : nid = b.id
    · rw [if_pos hkb]
      exact (ind _ _ hn₀).append (List.nodup_singleton _)
        (fun x hx hx2 => by
          rcases List.mem_cons.mp hx2 with h2 | h2
          · exact hfreshIn _ _ hn₀ (h2 ▸ hx)
          · simp at h2)
    · rw [if_neg hkb, List.append_nil]
      exact ind _ _ hn₀
  · intro nid n hn
    rw [hgn] at hn
    obtain ⟨n₀, hn₀, -, hoe, -, -, -⟩ := hchar _ _ hn
    rw [hoe]
    by_cases hka : nid = a.id
    · rw [if_pos hka]
      exact (ond _ _ hn₀).append (List.nodup_singleton _)
        (fun x hx hx2 => by
          rcases List.mem_cons.mp hx2 with h2 | h2
          · exact hfreshOut _ _ hn₀ (h2 ▸ hx)
          · simp at h2)
    · rw [if_neg hka, List.append_nil]
      exact ond _ _ hn₀
  · intro nid n hn eid
    rw [hgn] at hn
    rw [hge]
    obtain ⟨n₀, hn₀, hie, -, -, -, -⟩ := hchar _ _ hn
    rw [hie]
    by_cases heE : eid = g.nextId
    · subst heE
      by_cases hkb : nid = b.id
      · rw [if_pos hkb]
        simp only [List.mem_append, List.mem_singleton]
        constructor
        · intro
          exact ⟨_, hlookE_new, hkb.symm⟩
        · intro
          exact Or.inr trivial
      · rw [if_neg hkb, List.append_nil]
        constructor
        · intro hmem
          exact absurd hmem (hfreshIn _ _ hn₀)
        · rintro ⟨e', he', hd⟩
          rcases hchar_e _ _ he' with h2 | ⟨-, h2⟩
          · rw [hEfresh] at h2
            cases h2
          · rw [h2] at hd
            have hd' : b.id = nid := hd
            exact (hkb hd'.symm).elim
    · have hmemIff : eid ∈ n₀.inEdges ++ (if nid = b.id then [g.nextId] else []) ↔
          eid ∈ n₀.inEdges := by
        by_cases hkb : nid = b.id
        · rw [if_pos hkb]
          simp [heE]
        · rw [if_neg hkb, List.append_nil]
      rw [hmemIff, icc _ _ hn₀ eid]
      constructor
      · rintro ⟨e', he', hd⟩
        exact ⟨e', hlookE_old _ _ he', hd⟩
      · rintro ⟨e', he', hd⟩
        rcases hchar_e _ _ he' with h2 | ⟨h2, -⟩
        · exact ⟨e', h2, hd⟩
        · exact absurd h2 heE
  · intro nid n hn eid
    rw [hgn] at hn
    rw [hge]
    obtain ⟨n₀, hn₀, -, hoe, -, -, -⟩ := hchar _ _ hn
    rw [hoe]
    by_cases heE : eid = g.nextId
    · subst heE
      by_cases hka : nid = a.id
      · rw [if_pos hka]
        simp only [List.mem_append, List.mem_singleton]
        constructor
        · intro
          exact ⟨_, hlookE_new, hka.symm⟩
        · intro
          exact Or.inr trivial
      · rw [if_neg hka, List.append_nil]
        constructor
        · intro hmem
          exact absurd hmem (hfreshOut _ _ hn₀)
        · rintro ⟨e', he', hs⟩
          rcases hchar_e _ _ he' with h2 | ⟨-, h2⟩
          · rw [hEfresh] at h2
            cases h2
          · rw [h2] at hs
            have hs' : a.id = nid := hs
            exact (hka hs'.symm).elim
    · have hmemIff : eid ∈ n₀.outEdges ++ (if nid = a.id then [g.nextId] else []) ↔
          eid ∈ n₀.outEdges := by
        by_cases hka : nid = a.id
        · rw [if_pos hka]
          simp [heE]
        · rw [if_neg hka, List.append_nil]
      rw [hmemIff, occ _ _ hn₀ eid]
      constructor
      · rintro ⟨e', he', hs⟩
        exact ⟨e', hlookE_old _ _ he', hs⟩
      · rintro ⟨e', he', hs⟩
        rcases hchar_e _ _ he' with h2 | ⟨h2, -⟩
        · exact ⟨e', h2, hs⟩
        · exact absurd h2 heE
  · intro nid n hn
    rw [hgn] at hn
    rw [hge]
    obtain ⟨n₀, hn₀, hie, -, hin, -, -⟩ := hchar _ _ hn
    rw [hie, hin]
    have hmapeq : n₀.inEdges.map (edgeSrcD E2) = n₀.inEdges.map (edgeSrcD g.edges) := by
      apply List.map_congr_left
      intro x hx
      obtain ⟨e', he', -⟩ := (icc _ _ hn₀ _).mp hx
      exact hsrcD_old _ _ he'
    by_cases hkb : nid = b.id
    · rw [if_pos hkb, if_pos hkb, List.map_append, hmapeq]
      have : List.map (edgeSrcD E2) [g.nextId] = [a.id] := by
        simp [edgeSrcD, hlookE_new]
      rw [this]
      exact (inc _ _ hn₀).append_right _
    · rw [if_neg hkb, if_neg hkb, List.append_nil, List.append_nil, hmapeq]
      exact inc _ _ hn₀
  · intro nid n hn
    rw [hgn] at hn
    rw [hge]
    obtain ⟨n₀, hn₀, -, hoe, -, hon, -⟩ := hchar _ _ hn
    rw [hoe, hon]
    have hmapeq : n₀.outEdges.map (edgeDstD E2) = n₀.outEdges.map (edgeDstD g.edges) := by
      apply List.map_congr_left
      intro x hx
      obtain ⟨e', he', -⟩ := (occ _ _ hn₀ _).mp hx
      exact hdstD_old _ _ he'
    by_cases hka : nid = a.id
    · rw [if_pos hka, if_pos hka, List.map_append, hmapeq]
      have : List.map (edgeDstD E2) [g.nextId] = [b.id] := by
        simp [edgeDstD, hlookE_new]
      rw [this]
      exact (onc _ _ hn₀).append_right _
    · rw [if_neg hka, if_neg hka, List.append_nil, List.append_nil, hmapeq]
      exact onc _ _ hn₀
  · intro eid e' he'
    rw [hge] at he'
    rw [hgn, hsome, hsome]
    rcases hchar_e _ _ he' with h2 | ⟨-, h2⟩
    · exact epo _ _ h2
    · rw [h2]
      exact ⟨hai, hbi⟩
  · intro x
    rw [hgr, hgn]
    rw [List.mem_filter]
    constructor
    · rintro ⟨hx, hxb⟩
      have hxb' : x ≠ b.id := by simpa using hxb
      obtain ⟨n₀, hn₀, hni⟩ := (rc _).mp hx
      obtain ⟨n, hn, hie, -, -, -, -⟩ := hforw _ _ hn₀
      refine ⟨n, hn, ?_⟩
      rw [hie, if_neg hxb', List.append_nil, hni]
    · rintro ⟨n, hn, hni⟩
      obtain ⟨n₀, hn₀, hie, -, -, -, -⟩ := hchar _ _ hn
      by_cases hxb : x = b.id
      · rw [hie, if_pos hxb] at hni
        exact absurd hni (by simp)
      · rw [hie, if_neg hxb, List.append_nil] at hni
        exact ⟨(rc _).mpr ⟨n₀, hn₀, hni⟩, by simpa using hxb⟩
  · intro nid n hn c hc
    rw [hgn] at hn
    rw [hgg]
    obtain ⟨n₀, hn₀, -, -, -, -, hgrp⟩ := hchar _ _ hn
    rw [hgrp] at hc
    exact grc _ _ hn₀ _ hc
  · intro c grp hgr2 nid hnid
    rw [hgg] at hgr2
    rw [hgn]
    obtain ⟨n₀, hn₀, hgrp⟩ := mc _ _ hgr2 _ hnid
    obtain ⟨n, hn, -, -, -, -, hg2⟩ := hforw _ _ hn₀
    exact ⟨n, hn, hg2 ▸ hgrp⟩
  · intro c grp hgr2
    rw [hgg] at hgr2
    exact mnd _ _ hgr2

theorem removeEdgeCore_none {g : Graph} {eid : Nat}
    (h : lookupKey eid g.edges = none) : removeEdgeCore g eid = (g, []) := by
  rw [removeEdgeCore, h]

theorem removeEdgeCore_some {g : Graph} {eid : Nat} {e : EdgeRec}
    (h : lookupKey eid g.edges = some e) :
    removeEdgeCore g eid =
      ({ g with
          nodes := updKey e.dst (fun n => n.eraseInEdge eid e.src)
            (updKey e.src (fun n => n.eraseOutEdge eid e.dst) g.nodes)
          edges := eraseKey eid g.edges
          rootNodes :=
            if dstEmptyAfter
                (updKey e.dst (fun n => n.eraseInEdge eid e.src)
                  (updKey e.src (fun n => n.eraseOutEdge eid e.dst) g.nodes)) e.dst
            then g.rootNodes ++ [e.dst] else g.rootNodes },
       [.edgeRemoved eid]) := by
  rw [removeEdgeCore, h]

theorem removeEdgeCore_gid (g : Graph) (eid : Nat) :
    (removeEdgeCore g eid).1.gid = g.gid := by
  cases h : lookupKey eid g.edges with
  | none => rw [removeEdgeCore_none h]
  | some e => rw [removeEdgeCore_some h]

theorem removeEdgeCore_groups (g : Graph) (eid : Nat) :
    (removeEdgeCore g eid).1.groups = g.groups := by
  cases h : lookupKey eid g.edges with
  | none => rw [removeEdgeCore_none h]
  | some e => rw [removeEdgeCore_some h]

theorem removeEdgeCore_nextId (g : Graph) (eid : Nat) :
    (removeEdgeCore g eid).1.nextId = g.nextId := by
  cases h : lookupKey eid g.edges with
  | none => rw [removeEdgeCore_none h]
  | some e => rw [removeEdgeCore_some h]

theorem removeEdgeCore_nodes_keys (g : Graph) (eid : Nat) :
    keysOf (removeEdgeCore g eid).1.nodes = keysOf g.nodes := by
  cases h : lookupKey eid g.edges with
  | none => rw [removeEdgeCore_none h]
  | some e =>
    rw [removeEdgeCore_some h]
    dsimp only
    rw [keysOf_updKey, keysOf_updKey]

theorem removeEdgeCore_edges_lookup (g : Graph) (eid j : Nat) :
    lookupKey j (removeEdgeCore g eid).1.edges =
      if j = eid then none else lookupKey j g.edges := by
  cases h : lookupKey eid g.edges with
  | none =>
    rw [removeEdgeCore_none h]
    by_cases hj : j = eid
    · rw [if_pos hj, hj, h]
    · rw [if_neg hj]
  | some e =>
    rw [removeEdgeCore_some h]
    dsimp only
    rw [lookupKey_eraseKey]

theorem removeEdgeCore_group_field (g : Graph) (eid k : Nat) :
    (lookupKey k (removeEdgeCore g eid).1.nodes).map NodeRec.group =
      (lookupKey k g.nodes).map NodeRec.group := by
  cases h : lookupKey eid g.edges with
  | none => rw [removeEdgeCore_none h]
  | some e =>
    rw [removeEdgeCore_some h]
    dsimp only
    rw [lookupKey_updKey, lookupKey_updKey]
    by_cases hkd : k = e.dst <;> by_cases hks : k = e.src
    · simp only [if_pos hkd, if_pos hks]
      cases lookupKey k g.nodes <;> simp [NodeRec.eraseInEdge, NodeRec.eraseOutEdge]
    · simp only [if_pos hkd, if_neg hks]
      cases lookupKey k g.nodes <;> simp [NodeRec.eraseInEdge]
    · simp only [if_neg hkd, if_pos hks]
      cases lookupKey k g.nodes <;> simp [NodeRec.eraseOutEdge]
    · simp only [if_neg hkd, if_neg hks]

theorem inv_removeEdgeCore {g : Graph} (hinv : Inv g) (eid : Nat) :
    Inv (removeEdgeCore g eid).1 := by
  cases hES : lookupKey eid g.edges with
  | none =>
    rw [removeEdgeCore_none hES]
    exact hinv
  | some e =>
  obtain ⟨knd, ked, kgd, rnd, nlt, elt, glt, ind, ond, icc, occ, inc, onc, epo, rc, grc,
    mc, mnd⟩ := hinv
  rw [removeEdgeCore_some hES]
  set N2 := updKey e.dst (fun n => n.eraseInEdge eid e.src)
      (updKey e.src (fun n => n.eraseOutEdge eid e.dst) g.nodes) with hN2
  set R2 := if dstEmptyAfter N2 e.dst then g.rootNodes ++ [e.dst] else g.rootNodes with hR2
  have hgn : ({ g with
      nodes := N2
      edges := eraseKey eid g.edges
      rootNodes := R2 } : Graph).nodes = N2 := rfl
  have hge : ({ g with
      nodes := N2
      edges := eraseKey eid g.edges
      rootNodes := R2 } : Graph).edges = eraseKey eid g.edges := rfl
  have hgg : ({ g with
      nodes := N2
      edges := eraseKey eid g.edges
      rootNodes := R2 } : Graph).groups = g.groups := rfl
  have hgr : ({ g with
      nodes := N2
      edges := eraseKey eid g.edges
      rootNodes := R2 } : Graph).rootNodes = R2 := rfl
  have hgx : ({ g with
      nodes := N2
      edges := eraseKey eid g.edges
      rootNodes := R2 } : Graph).nextId = g.nextId := rfl
  have hchar : ∀ k n, lookupKey k N2 = some n →
      ∃ n₀, lookupKey k g.nodes = some n₀ ∧
        n.inEdges = (if k = e.dst then n₀.inEdges.erase eid else n₀.inEdges) ∧
        n.outEdges = (if k = e.src then n₀.outEdges.erase eid else n₀.outEdges) ∧
        n.inNodes = (if k = e.dst then n₀.inNodes.erase e.src else n₀.inNodes) ∧
        n.outNodes = (if k = e.src then n₀.outNodes.erase e.dst else n₀.outNodes) ∧
        n.group = n₀.group := by
    intro k n hk
    rw [hN2, lookupKey_updKey, lookupKey_updKey] at hk
    by_cases hkd : k = e.dst <;> by_cases hks : k = e.src
    · simp only [if_pos hkd, if_pos hks] at hk
      cases hl : lookupKey k g.nodes with
      | some v =>
        rw [hl] at hk
        simp only [Option.map_some'] at hk
        injection hk with hk
        refine ⟨v, rfl, ?_⟩
        simp only [if_pos hkd, if_pos hks]
        rw [← hk]
        simp [NodeRec.eraseInEdge, NodeRec.eraseOutEdge]
      | none =>
        rw [hl] at hk
        simp at hk
    · simp only [if_pos hkd, if_neg hks] at hk
      cases hl : lookupKey k g.nodes with
      | some v =>
        rw [hl] at hk
        simp only [Option.map_some'] at hk
        injection hk with hk
        refine ⟨v, rfl, ?_⟩
        simp only [if_pos hkd, if_neg hks]
        rw [← hk]
        simp [NodeRec.eraseInEdge]
      | none =>
        rw [hl] at hk
        simp at hk
    · simp only [if_neg hkd, if_pos hks] at hk
      cases hl : lookupKey k g.nodes with
      | some v =>
        rw [hl] at hk
        simp only [Option.map_some'] at hk
        injection hk with hk
        refine ⟨v, rfl, ?_⟩
        simp only [if_neg hkd, if_pos hks]
        rw [← hk]
        simp [NodeRec.eraseOutEdge]
      | none =>
        rw [hl] at hk
        simp at hk
    · simp only [if_neg hkd, if_neg hks] at hk
      refine ⟨n, hk, ?_⟩
      simp only [if_neg hkd, if_neg hks]
      simp
  have hforw : ∀ k n₀, lookupKey k g.nodes = some n₀ →
      ∃ n, lookupKey k N2 = some n ∧
        n.inEdges = (if k = e.dst then n₀.inEdges.erase eid else n₀.inEdges) ∧
        n.outEdges = (if k = e.src then n₀.outEdges.erase eid else n₀.outEdges) ∧
        n.inNodes = (if k = e.dst then n₀.inNodes.erase e.src else n₀.inNodes) ∧
        n.outNodes = (if k = e.src then n₀.outNodes.erase e.dst else n₀.outNodes) ∧
        n.group = n₀.group := by
    intro k n₀ hk
    rw [hN2, lookupKey_updKey, lookupKey_updKey, hk]
    by_cases hkd : k = e.dst <;> by_cases hks : k = e.src
    · simp only [if_pos hkd, if_pos hks, Option.map_some']
      refine ⟨_, rfl, ?_⟩
      simp [NodeRec.eraseInEdge, NodeRec.eraseOutEdge]
    · simp only [if_pos hkd, if_neg hks, Option.map_some']
      refine ⟨_, rfl, ?_⟩
      simp [NodeRec.eraseInEdge]
    · simp only [if_neg hkd, if_pos hks, Option.map_some']
      refine ⟨_, rfl, ?_⟩
      simp [NodeRec.eraseOutEdge]
    · simp only [if_neg hkd, if_neg hks]
      refine ⟨_, rfl, ?_⟩
      simp
  have hsome : ∀ k, (lookupKey k N2).isSome = (lookupKey k g.nodes).isSome := by
    intro k
    rw [hN2, lookupKey_updKey, lookupKey_updKey]
    by_cases hkd : k = e.dst <;> by_cases hks : k = e.src
    · simp only [if_pos hkd, if_pos hks]
      cases lookupKey k g.nodes <;> simp
    · simp only [if_pos hkd, if_neg hks]
      cases lookupKey k g.nodes <;> simp
    · simp only [if_neg hkd, if_pos hks]
      cases lookupKey k g.nodes <;> simp
    · simp only [if_neg hkd, if_neg hks]
  have hmemD : ∀ n₀, lookupKey e.dst g.nodes = some n₀ → eid ∈ n₀.inEdges := by
    intro n₀ h
    exact (icc _ _ h eid).mpr ⟨e, hES, rfl⟩
  have hmemS : ∀ n₀, lookupKey e.src g.nodes = some n₀ → eid ∈ n₀.outEdges := by
    intro n₀ h
    exact (occ _ _ h eid).mpr ⟨e, hES, rfl⟩
  have hnotinD : ∀ k n₀, lookupKey k g.nodes = some n₀ → k ≠ e.dst →
      eid ∉ n₀.inEdges := by
    intro k n₀ h hk hmem
    obtain ⟨e', he', hd⟩ := (icc _ _ h eid).mp hmem
    rw [hES] at he'
    injection he' with he'
    exact hk (he' ▸ hd : e.dst = k).symm
  have hnotinS : ∀ k n₀, lookupKey k g.nodes = some n₀ → k ≠ e.src →
      eid ∉ n₀.outEdges := by
    intro k n₀ h hk hmem
    obtain ⟨e', he', hs⟩ := (occ _ _ h eid).mp hmem
    rw [hES] at he'
    injection he' with he'
    exact hk (he' ▸ hs : e.src = k).symm
  have hlookE' : ∀ j, lookupKey j (eraseKey eid g.edges) =
      if j = eid then none else lookupKey j g.edges := fun j => lookupKey_eraseKey _ _ _
  have hsrcD' : ∀ j (e' : EdgeRec), lookupKey j g.edges = some e' → j ≠ eid →
      edgeSrcD (eraseKey eid g.edges) j = edgeSrcD g.edges j := by
    intro j e' hj hne
    rw [edgeSrcD, edgeSrcD, hlookE' j, if_neg hne]
  have hdstD' : ∀ j (e' : EdgeRec), lookupKey j g.edges = some e' → j ≠ eid →
      edgeDstD (eraseKey eid g.edges) j = edgeDstD g.edges j := by
    intro j e' hj hne
    rw [edgeDstD, edgeDstD, hlookE' j, if_neg hne]
  refine ⟨?_, ?_, ?_, ?_, ?_, ?_, ?_, ?_, ?_, ?_, ?_, ?_, ?_, ?_, ?_, ?_, ?_, ?_⟩
  · rw [hgn, hN2, keysOf_updKey, keysOf_updKey]
    exact knd
  · rw [hge, keysOf_eraseKey]
    exact ked.filter _
  · rw [hgg]; exact kgd
  · rw [hgr, hR2]
    by_cases hde : dstEmptyAfter N2 e.dst
    · rw [if_pos hde]
      refine rnd.append (List.nodup_singleton _) ?_
      intro x hx hx2
      rcases List.mem_cons.mp hx2 with h2 | h2
      · subst h2
        obtain ⟨n₀, hn₀, hni⟩ := (rc _).mp hx
        exact absurd hni (List.ne_nil_of_mem (hmemD _ hn₀))
      · simp at h2
    · rw [if_neg hde]
      exact rnd
  · intro k hk
    rw [hgn, hN2, keysOf_updKey, keysOf_updKey] at hk
    rw [hgx]
    exact nlt _ hk
  · intro k hk
    rw [hge, keysOf_eraseKey] at hk
    rw [hgx]
    exact elt _ (List.mem_of_mem_filter hk)
  · intro k hk
    rw [hgg] at hk
    rw [hgx]
    exact glt _ hk
  · intro nid n hn
    rw [hgn] at hn
    obtain ⟨n₀, hn₀, hie, -, -, -, -⟩ := hchar _ _ hn
    rw [hie]
    by_cases hkd : nid = e.dst
    · rw [if_pos hkd]
      exact (ind _ _ hn₀).erase _
    · rw [if_neg hkd]
      exact ind _ _ hn₀
  · intro nid n hn
    rw [hgn] at hn
    obtain ⟨n₀, hn₀, -, hoe, -, -, -⟩ := hchar _ _ hn
    rw [hoe]
    by_cases hks : nid = e.src
    · rw [if_pos hks]
      exact (ond _ _ hn₀).erase _
    · rw [if_neg hks]
      exact ond _ _ hn₀
  · intro nid n hn j
    rw [hgn] at hn
    rw [hge, hlookE' j]
    obtain ⟨n₀, hn₀, hie, -, -, -, -⟩ := hchar _ _ hn
    rw [hie]
    by_cases hkd : nid = e.dst
    · rw [if_pos hkd]
      rw [(ind _ _ hn₀).mem_erase_iff]
      by_cases hje : j = eid
      · rw [if_pos hje]
        simp [hje]
      · rw [if_neg hje, icc _ _ hn₀ j]
        simp [hje]
    · rw [if_neg hkd]
      by_cases hje : j = eid
      · rw [if_pos hje]
        subst hje
        constructor
        · intro hmem
          exact absurd hmem (hnotinD _ _ hn₀ hkd)
        · rintro ⟨e', he', -⟩
          cases he'
      · rw [if_neg hje]
        exact icc _ _ hn₀ j
  · intro nid n hn j
    rw [hgn] at hn
    rw [hge, hlookE' j]
    obtain ⟨n₀, hn₀, -, hoe, -, -, -⟩ := hchar _ _ hn
    rw [hoe]
    by_cases hks : nid = e.src
    · rw [if_pos hks]
      rw [(ond _ _ hn₀).mem_erase_iff]
      by_cases hje : j = eid
      · rw [if_pos hje]
        simp [hje]
      · rw [if_neg hje, occ _ _ hn₀ j]
        simp [hje]
    · rw [if_neg hks]
      by_cases hje : j = eid
      · rw [if_pos hje]
        subst hje
        constructor
        · intro hmem
          exact absurd hmem (hnotinS _ _ hn₀ hks)
        · rintro ⟨e', he', -⟩
          cases he'
      · rw [if_neg hje]
        exact occ _ _ hn₀ j
  · intro nid n hn
    rw [hgn] at hn
    rw [hge]
    obtain ⟨n₀, hn₀, hie, -, hin, -, -⟩ := hchar _ _ hn
    rw [hie, hin]
    by_cases hkd : nid = e.dst
    · rw [if_pos hkd, if_pos hkd]
      have hnd := ind _ _ hn₀
      have hmem := hmemD _ (hkd ▸ hn₀)
      have hmap1 : (n₀.inEdges.erase eid).map (edgeSrcD (eraseKey eid g.edges)) =
          (n₀.inEdges.erase eid).map (edgeSrcD g.edges) := by
        apply List.map_congr_left
        intro x hx
        have hxne : x ≠ eid := (hnd.mem_erase_iff.mp hx).1
        obtain ⟨e', he', -⟩ := (icc _ _ hn₀ x).mp (hnd.mem_erase_iff.mp hx).2
        exact hsrcD' x e' he' hxne
      rw [hmap1]
      have hperm1 : n₀.inEdges.Perm (eid :: n₀.inEdges.erase eid) :=
        List.perm_cons_erase hmem
      have hperm2 : (n₀.inEdges.map (edgeSrcD g.edges)).Perm
          (edgeSrcD g.edges eid :: (n₀.inEdges.erase eid).map (edgeSrcD g.edges)) := by
        have := hperm1.map (edgeSrcD g.edges)
        simpa using this
      have hfe : edgeSrcD g.edges eid = e.src := by
        rw [edgeSrcD, hES]
      rw [hfe] at hperm2
      have hperm3 : n₀.inNodes.Perm
          (e.src :: (n₀.inEdges.erase eid).map (edgeSrcD g.edges)) :=
        (inc _ _ hn₀).symm.trans hperm2
      have hperm4 := hperm3.erase e.src
      rw [List.erase_cons_head] at hperm4
      exact hperm4.symm
    · rw [if_neg hkd, if_neg hkd]
      have hmap1 : n₀.inEdges.map (edgeSrcD (eraseKey eid g.edges)) =
          n₀.inEdges.map (edgeSrcD g.edges) := by
        apply List.map_congr_left
        intro x hx
        have hxne : x ≠ eid := fun hxe => (hnotinD _ _ hn₀ hkd) (hxe ▸ hx)
        obtain ⟨e', he', -⟩ := (icc _ _ hn₀ x).mp hx
        exact hsrcD' x e' he' hxne
      rw [hmap1]
      exact inc _ _ hn₀
  · intro nid n hn
    rw [hgn] at hn
    rw [hge]
    obtain ⟨n₀, hn₀, -, hoe, -, hon, -⟩ := hchar _ _ hn
    rw [hoe, hon]
    by_cases hks : nid = e.src
    · rw [if_pos hks, if_pos hks]
      have hnd := ond _ _ hn₀
      have hmem := hmemS _ (hks ▸ hn₀)
      have hmap1 : (n₀.outEdges.erase eid).map (edgeDstD (eraseKey eid g.edges)) =
          (n₀.outEdges.erase eid).map (edgeDstD g.edges) := by
        apply List.map_congr_left
        intro x hx
        have hxne : x ≠ eid := (hnd.mem_erase_iff.mp hx).1
        obtain ⟨e', he', -⟩ := (occ _ _ hn₀ x).mp (hnd.mem_erase_iff.mp hx).2
        exact hdstD' x e' he' hxne
      rw [hmap1]
      have hperm1 : n₀.outEdges.Perm (eid :: n₀.outEdges.erase eid) :=
        List.perm_cons_erase hmem
      have hperm2 : (n₀.outEdges.map (edgeDstD g.edges)).Perm
          (edgeDstD g.edges eid :: (n₀.outEdges.erase eid).map (edgeDstD g.edges)) := by
        have := hperm1.map (edgeDstD g.edges)
        simpa using this
      have hfe : edgeDstD g.edges eid = e.dst := by
        rw [edgeDstD, hES]
      rw [hfe] at hperm2
      have hperm3 : n₀.outNodes.Perm
          (e.dst :: (n₀.outEdges.erase eid).map (edgeDstD g.edges)) :=
        (onc _ _ hn₀).symm.trans hperm2
      have hperm4 := hperm3.erase e.dst
      rw [List.erase_cons_head] at hperm4
      exact hperm4.symm
    · rw [if_neg hks, if_neg hks]
      have hmap1 : n₀.outEdges.map (edgeDstD (eraseKey eid g.edges)) =
          n₀.outEdges.map (edgeDstD g.edges) := by
        apply List.map_congr_left
        intro x hx
        have hxne : x ≠ eid := fun hxe => (hnotinS _ _ hn₀ hks) (hxe ▸ hx)
        obtain ⟨e', he', -⟩ := (occ _ _ hn₀ x).mp hx
        exact hdstD' x e' he' hxne
      rw [hmap1]
      exact onc _ _ hn₀
  · intro j e' he'
    rw [hge, hlookE' j] at he'
    rw [hgn, hsome, hsome]
    by_cases hje : j = eid
    · rw [if_pos hje] at he'
      cases he'
    · rw [if_neg hje] at he'
      exact epo _ _ he'
  · intro x
    rw [hgr, hR2, hgn]
    obtain ⟨nD, hnD⟩ := Option.isSome_iff_exists.mp (epo _ _ hES).2
    obtain ⟨nD', hnD', hie', -, -, -, -⟩ := hforw _ _ hnD
    rw [if_pos rfl] at hie'
    have hdstval : dstEmptyAfter N2 e.dst = nD'.inEdges.isEmpty := by
      rw [dstEmptyAfter, hnD']
    by_cases hde : dstEmptyAfter N2 e.dst
    · rw [if_pos hde]
      have hempty : nD'.inEdges = [] := by
        rw [hdstval] at hde
        exact List.isEmpty_iff.mp hde
      by_cases hxd : x = e.dst
      · subst hxd
        constructor
        · intro
          exact ⟨nD', hnD', hempty⟩
        · intro
          exact List.mem_append.mpr (Or.inr (List.mem_cons_self _ _))
      · constructor
        · intro hx
          rcases List.mem_append.mp hx with h2 | h2
          · obtain ⟨n₀, hn₀, hni⟩ := (rc _).mp h2
            obtain ⟨n, hn, hie2, -, -, -, -⟩ := hforw _ _ hn₀
            refine ⟨n, hn, ?_⟩
            rw [hie2, if_neg hxd, hni]
          · rcases List.mem_cons.mp h2 with h3 | h3
            · exact absurd h3 hxd
            · simp at h3
        · rintro ⟨n, hn, hni⟩
          obtain ⟨n₀, hn₀, hie2, -, -, -, -⟩ := hchar _ _ hn
          rw [hie2, if_neg hxd] at hni
          exact List.mem_append.mpr (Or.inl ((rc _).mpr ⟨n₀, hn₀, hni⟩))
    · rw [if_neg hde]
      have hnonempty : nD'.inEdges ≠ [] := by
        rw [hdstval] at hde
        intro hcon
        exact hde (by rw [hcon]; rfl)
      by_cases hxd : x = e.dst
      · subst hxd
        constructor
        · intro hx
          obtain ⟨n₀, hn₀, hni⟩ := (rc _).mp hx
          exact absurd hni (List.ne_nil_of_mem (hmemD _ hn₀))
        · rintro ⟨n, hn, hni⟩
          rw [hnD'] at hn
          injection hn with hn
          exact absurd (hn ▸ hni) hnonempty
      · constructor
        · intro hx
          obtain ⟨n₀, hn₀, hni⟩ := (rc _).mp hx
          obtain ⟨n, hn, hie2, -, -, -, -⟩ := hforw _ _ hn₀
          refine ⟨n, hn, ?_⟩
          rw [hie2, if_neg hxd, hni]
        · rintro ⟨n, hn, hni⟩
          obtain ⟨n₀, hn₀, hie2, -, -, -, -⟩ := hchar _ _ hn
          rw [hie2, if_neg hxd] at hni
          exact (rc _).mpr ⟨n₀, hn₀, hni⟩
  · intro nid n hn c hc
    rw [hgn] at hn
    rw [hgg]
    obtain ⟨n₀, hn₀, -, -, -, -, hgrp⟩ := hchar _ _ hn
    rw [hgrp] at hc
    exact grc _ _ hn₀ _ hc
  · intro c grp hgr2 nid hnid
    rw [hgg] at hgr2
    rw [hgn]
    obtain ⟨n₀, hn₀, hgrp⟩ := mc _ _ hgr2 _ hnid
    obtain ⟨n, hn, -, -, -, -, hg2⟩ := hforw _ _ hn₀
    exact ⟨n, hn, hg2 ▸ hgrp⟩
  · intro c grp hgr2
    rw [hgg] at hgr2
    exact mnd _ _ hgr2

theorem removeEdges_nil (g : Graph) : removeEdges g [] = (g, []) := rfl

theorem removeEdges_cons (g : Graph) (eid : Nat) (rest : List Nat) :
    removeEdges g (eid :: rest) =
      ((removeEdges (removeEdgeCore g eid).1 rest).1,
        (removeEdgeCore g eid).2 ++ (removeEdges (removeEdgeCore g eid).1 rest).2) := rfl

theorem inv_removeEdges {g : Graph} (hinv : Inv g) (l : List Nat) :
    Inv (removeEdges g l).1 := by
  induction l generalizing g with
  | nil => exact hinv
  | cons eid rest ih =>
    rw [removeEdges_cons]
    exact ih (inv_removeEdgeCore hinv eid)

theorem removeEdges_gid (g : Graph) (l : List Nat) :
    (removeEdges g l).1.gid = g.gid := by
  induction l generalizing g with
  | nil => rfl
  | cons eid rest ih =>
    rw [removeEdges_cons]
    rw [ih (removeEdgeCore g eid).1, removeEdgeCore_gid]

theorem removeEdges_groups (g : Graph) (l : List Nat) :
    (removeEdges g l).1.groups = g.groups := by
  induction l generalizing g with
  | nil => rfl
  | cons eid rest ih =>
    rw [removeEdges_cons]
    rw [ih (removeEdgeCore g eid).1, removeEdgeCore_groups]

theorem removeEdges_nextId (g : Graph) (l : List Nat) :
    (removeEdges g l).1.nextId = g.nextId := by
  induction l generalizing g with
  | nil => rfl
  | cons eid rest ih =>
    rw [removeEdges_cons]
    rw [ih (removeEdgeCore g eid).1, removeEdgeCore_nextId]

theorem removeEdges_nodes_keys (g : Graph) (l : List Nat) :
    keysOf (removeEdges g l).1.nodes = keysOf g.nodes := by
  induction l generalizing g with
  | nil => rfl
  | cons eid rest ih =>
    rw [removeEdges_cons]
    rw [ih (removeEdgeCore g eid).1, removeEdgeCore_nodes_keys]

theorem removeEdges_group_field (g : Graph) (l : List Nat) (k : Nat) :
    (lookupKey k (removeEdges g l).1.nodes).map NodeRec.group =
      (lookupKey k g.nodes).map NodeRec.group := by
  induction l generalizing g with
  | nil => rfl
  | cons eid rest ih =>
    rw [removeEdges_cons]
    rw [ih (removeEdgeCore g eid).1, removeEdgeCore_group_field]

theorem removeEdges_edges_lookup (g : Graph) (l : List Nat) (j : Nat) :
    lookupKey j (removeEdges g l).1.edges =
      if j ∈ l then none else lookupKey j g.edges := by
  induction l generalizing g with
  | nil =>
    rw [removeEdges_nil]
    simp
  | cons eid rest ih =>
    rw [removeEdges_cons]
    rw [ih (removeEdgeCore g eid).1, removeEdgeCore_edges_lookup]
    by_cases hjr : j ∈ rest
    · rw [if_pos hjr, if_pos (List.mem_cons.mpr (Or.inr hjr))]
    · rw [if_neg hjr]
      by_cases hje : j = eid
      · rw [if_pos hje, if_pos (List.mem_cons.mpr (Or.inl hje))]
      · rw [if_neg hje, if_neg (fun hm => by
          rcases List.mem_cons.mp hm with h2 | h2
          · exact hje h2
          · exact hjr h2)]

theorem removeEdges_edges (g : Graph) (l : List Nat) :
    (removeEdges g l).1.edges = g.edges.filter (fun p => p.1 ∉ l) := by
  induction l generalizing g with
  | nil =>
    rw [removeEdges_nil]
    exact (List.filter_eq_self.mpr (fun p _ => by simp)).symm
  | cons eid rest ih =>
    rw [removeEdges_cons]
    rw [ih (removeEdgeCore g eid).1]
    cases hES : lookupKey eid g.edges with
    | none =>
      rw [removeEdgeCore_none hES]
      apply List.filter_congr
      intro p hp
      have hpe : p.1 ≠ eid := by
        intro hcon
        have : (lookupKey eid g.edges).isSome = true :=
          lookupKey_isSome_iff.mpr (hcon ▸ List.mem_map_of_mem Prod.fst hp)
        rw [hES] at this
        cases this
      simp [hpe]
    | some e =>
      rw [removeEdgeCore_some hES]
      dsimp only
      rw [eraseKey, List.filter_filter]
      apply List.filter_congr
      intro p hp
      simp [List.mem_cons, not_or, Bool.and_comm]

theorem removeEdges_notifs (g : Graph) (l : List Nat) (hnd : l.Nodup) :
    (removeEdges g l).2 =
      (l.filter (fun x => (lookupKey x g.edges).isSome)).map Notif.edgeRemoved := by
  induction l generalizing g with
  | nil => rfl
  | cons eid rest ih =>
    rw [List.nodup_cons] at hnd
    rw [removeEdges_cons, List.filter_cons]
    have hrest : (removeEdges (removeEdgeCore g eid).1 rest).2 =
        (rest.filter (fun x => (lookupKey x g.edges).isSome)).map Notif.edgeRemoved := by
      rw [ih (removeEdgeCore g eid).1 hnd.2]
      congr 1
      apply List.filter_congr
      intro x hx
      rw [removeEdgeCore_edges_lookup,
        if_neg (fun hcon : x = eid => hnd.1 (by rw [← hcon]; exact hx))]
    cases hES : lookupKey eid g.edges with
    | none =>
      dsimp only
      rw [hrest, removeEdgeCore_none hES]
      simp
    | some e =>
      dsimp only
      rw [hrest, removeEdgeCore_some hES]
      simp

theorem removeEdges_append (g : Graph) (l₁ l₂ : List Nat) :
    removeEdges g (l₁ ++ l₂) =
      ((removeEdges (removeEdges g l₁).1 l₂).1,
        (removeEdges g l₁).2 ++ (removeEdges (removeEdges g l₁).1 l₂).2) := by
  induction l₁ generalizing g with
  | nil => simp [removeEdges_nil]
  | cons eid rest ih =>
    rw [List.cons_append, removeEdges_cons, ih, removeEdges_cons]
    dsimp only
    rw [List.append_assoc]

theorem inv_removeNodeAux {g1 : Graph} (hinv1 : Inv g1) (nid : Nat)
    (GR : List (Nat × GroupRec))
    (hGRkeys : keysOf GR = keysOf g1.groups)
    (hGR : ∀ c, lookupKey c GR = (lookupKey c g1.groups).map
      (fun grp => { grp with nodes := grp.nodes.filter (fun m => m ≠ nid) }))
    (hnoedge : ∀ j e', lookupKey j g1.edges = some e' → e'.src ≠ nid ∧ e'.dst ≠ nid) :
    Inv { g1 with
      nodes := eraseKey nid g1.nodes
      groups := GR
      rootNodes := g1.rootNodes.filter (fun m => m ≠ nid) } := by
  obtain ⟨knd, ked, kgd, rnd, nlt, elt, glt, ind, ond, icc, occ, inc, onc, epo, rc, grc,
    mc, mnd⟩ := hinv1
  have hgn : ({ g1 with
      nodes := eraseKey nid g1.nodes
      groups := GR
      rootNodes := g1.rootNodes.filter (fun m => m ≠ nid) } : Graph).nodes
      = eraseKey nid g1.nodes := rfl
  have hge : ({ g1 with
      nodes := eraseKey nid g1.nodes
      groups := GR
      rootNodes := g1.rootNodes.filter (fun m => m ≠ nid) } : Graph).edges
      = g1.edges := rfl
  have hgg : ({ g1 with
      nodes := eraseKey nid g1.nodes
      groups := GR
      rootNodes := g1.rootNodes.filter (fun m => m ≠ nid) } : Graph).groups = GR := rfl
  have hgr : ({ g1 with
      nodes := eraseKey nid g1.nodes
      groups := GR
      rootNodes := g1.rootNodes.filter (fun m => m ≠ nid) } : Graph).rootNodes
      = g1.rootNodes.filter (fun m => m ≠ nid) := rfl
  have hgx : ({ g1 with
      nodes := eraseKey nid g1.nodes
      groups := GR
      rootNodes := g1.rootNodes.filter (fun m => m ≠ nid) } : Graph).nextId
      = g1.nextId := rfl
  have hlookN : ∀ k, lookupKey k (eraseKey nid g1.nodes) =
      if k = nid then none else lookupKey k g1.nodes := fun k => lookupKey_eraseKey _ _ _
  refine ⟨?_, ?_, ?_, ?_, ?_, ?_, ?_, ?_, ?_, ?_, ?_, ?_, ?_, ?_, ?_, ?_, ?_, ?_⟩
  · rw [hgn, keysOf_eraseKey]
    exact knd.filter _
  · rw [hge]; exact ked
  · rw [hgg, hGRkeys]; exact kgd
  · rw [hgr]; exact rnd.filter _
  · intro k hk
    rw [hgn, keysOf_eraseKey] at hk
    rw [hgx]
    exact nlt _ (List.mem_of_mem_filter hk)
  · intro k hk
    rw [hge] at hk
    rw [hgx]
    exact elt _ hk
  · intro k hk
    rw [hgg, hGRkeys] at hk
    rw [hgx]
    exact glt _ hk
  · intro k n hn
    rw [hgn, hlookN k] at hn
    by_cases hk : k = nid
    · rw [if_pos hk] at hn
      cases hn
    · rw [if_neg hk] at hn
      exact ind _ _ hn
  · intro k n hn
    rw [hgn, hlookN k] at hn
    by_cases hk : k = nid
    · rw [if_pos hk] at hn
      cases hn
    · rw [if_neg hk] at hn
      exact ond _ _ hn
  · intro k n hn j
    rw [hgn, hlookN k] at hn
    rw [hge]
    by_cases hk : k = nid
    · rw [if_pos hk] at hn
      cases hn
    · rw [if_neg hk] at hn
      exact icc _ _ hn j
  · intro k n hn j
    rw [hgn, hlookN k] at hn
    rw [hge]
    by_cases hk : k = nid
    · rw [if_pos hk] at hn
      cases hn
    · rw [if_neg hk] at hn
      exact occ _ _ hn j
  · intro k n hn
    rw [hgn, hlookN k] at hn
    rw [hge]
    by_cases hk : k = nid
    · rw [if_pos hk] at hn
      cases hn
    · rw [if_neg hk] at hn
      exact inc _ _ hn
  · intro k n hn
    rw [hgn, hlookN k] at hn
    rw [hge]
    by_cases hk : k = nid
    · rw [if_pos hk] at hn
      cases hn
    · rw [if_neg hk] at hn
      exact onc _ _ hn
  · intro j e' he'
    rw [hge] at he'
    rw [hgn, hlookN, hlookN]
    obtain ⟨hs, hd⟩ := hnoedge _ _ he'
    rw [if_neg hs, if_neg hd]
    exact epo _ _ he'
  · intro x
    rw [hgr, hgn, List.mem_filter]
    constructor
    · rintro ⟨hx, hxn⟩
      have hxn' : x ≠ nid := by simpa using hxn
      obtain ⟨n, hn, hni⟩ := (rc _).mp hx
      refine ⟨n, ?_, hni⟩
      rw [hlookN, if_neg hxn']
      exact hn
    · rintro ⟨n, hn, hni⟩
      rw [hlookN] at hn
      by_cases hx : x = nid
      · rw [if_pos hx] at hn
        cases hn
      · rw [if_neg hx] at hn
        exact ⟨(rc _).mpr ⟨n, hn, hni⟩, by simpa using hx⟩
  · intro k n hn c hc
    rw [hgn, hlookN k] at hn
    rw [hgg, hGR c]
    by_cases hk : k = nid
    · rw [if_pos hk] at hn
      cases hn
    · rw [if_neg hk] at hn
      obtain ⟨grp, hgrp2, hkmem⟩ := grc _ _ hn _ hc
      rw [hgrp2]
      refine ⟨_, rfl, ?_⟩
      rw [List.mem_filter]
      exact ⟨hkmem, by simpa using hk⟩
  · intro c grp hgrp2 m hm
    rw [hgg, hGR c] at hgrp2
    rw [hgn]
    cases hl : lookupKey c g1.groups with
    | none =>
      rw [hl] at hgrp2
      cases hgrp2
    | some grp0 =>
      rw [hl] at hgrp2
      injection hgrp2 with hgrp2
      rw [← hgrp2] at hm
      have hm' := List.mem_filter.mp hm
      have hmnid : m ≠ nid := by simpa using hm'.2
      obtain ⟨n, hn, hng⟩ := mc _ _ hl _ hm'.1
      refine ⟨n, ?_, hng⟩
      rw [hlookN, if_neg hmnid]
      exact hn
  · intro c grp hgrp2
    rw [hgg, hGR c] at hgrp2
    cases hl : lookupKey c g1.groups with
    | none =>
      rw [hl] at hgrp2
      cases hgrp2
    | some grp0 =>
      rw [hl] at hgrp2
      injection hgrp2 with hgrp2
      rw [← hgrp2]
      exact (mnd _ _ hl).filter _

theorem inv_removeNodeCore {g : Graph} (hinv : Inv g) {nid : Nat} {n : NodeRec}
    (hn : lookupKey nid g.nodes = some n) : Inv (removeNodeCore g nid n).1 := by
  have hinv1 : Inv (removeEdges g (n.inEdges ++ n.outEdges)).1 :=
    inv_removeEdges hinv _
  have hgrpEq : ∀ n1,
      lookupKey nid (removeEdges g (n.inEdges ++ n.outEdges)).1.nodes = some n1 →
        n1.group = n.group := by
    intro n1 hn1
    have hgf := removeEdges_group_field g (n.inEdges ++ n.outEdges) nid
    rw [hn1, hn] at hgf
    injection hgf
  have hnidOnly : ∀ c grp,
      lookupKey c (removeEdges g (n.inEdges ++ n.outEdges)).1.groups = some grp →
        nid ∈ grp.nodes → n.group = some c := by
    intro c grp hc hmem
    obtain ⟨n1, hn1, hng⟩ := hinv1.membersCorrect _ _ hc _ hmem
    rw [← hgrpEq n1 hn1]
    exact hng
  have heq : (removeNodeCore g nid n).1 =
      { (removeEdges g (n.inEdges ++ n.outEdges)).1 with
        nodes := eraseKey nid (removeEdges g (n.inEdges ++ n.outEdges)).1.nodes
        groups := (match n.group with
          | some a => updKey a
              (fun grp => { grp with nodes := grp.nodes.filter (fun m => m ≠ nid) })
              (removeEdges g (n.inEdges ++ n.outEdges)).1.groups
          | none => (removeEdges g (n.inEdges ++ n.outEdges)).1.groups)
        rootNodes := (removeEdges g (n.inEdges ++ n.outEdges)).1.rootNodes.filter
          (fun m => m ≠ nid) } := by
    rw [removeNodeCore]
    cases n.group with
    | none => rfl
    | some a => rfl
  rw [heq]
  apply inv_removeNodeAux hinv1 nid
  · cases hgo : n.group with
    | none => rfl
    | some a => exact keysOf_updKey _ _ _
  · intro c
    cases hgo : n.group with
    | none =>
      cases hl : lookupKey c (removeEdges g (n.inEdges ++ n.outEdges)).1.groups with
      | none => rfl
      | some grp =>
        simp only [Option.map_some']
        have hnid : nid ∉ grp.nodes := by
          intro hcon
          have h2 := hnidOnly _ _ hl hcon
          rw [hgo] at h2
          cases h2
        have hfeq : grp.nodes.filter (fun m => m ≠ nid) = grp.nodes := by
          apply List.filter_eq_self.mpr
          intro m hm
          simpa using fun hcon : m = nid => hnid (hcon ▸ hm)
        rw [hfeq]
    | some a =>
      rw [lookupKey_updKey]
      by_cases hca : c = a
      · rw [if_pos hca]
      · rw [if_neg hca]
        cases hl : lookupKey c (removeEdges g (n.inEdges ++ n.outEdges)).1.groups with
        | none => rfl
        | some grp =>
          simp only [Option.map_some']
          have hnid : nid ∉ grp.nodes := by
            intro hcon
            have h2 := hnidOnly _ _ hl hcon
            rw [hgo] at h2
            injection h2 with h2
            exact hca h2.symm
          have hfeq : grp.nodes.filter (fun m => m ≠ nid) = grp.nodes := by
            apply List.filter_eq_self.mpr
            intro m hm
            simpa using fun hcon : m = nid => hnid (hcon ▸ hm)
          rw [hfeq]
  · intro j e' he'
    rw [removeEdges_edges_lookup] at he'
    by_cases hj : j ∈ n.inEdges ++ n.outEdges
    · rw [if_pos hj] at he'
      cases he'
    · rw [if_neg hj] at he'
      constructor
      · intro hcon
        apply hj
        apply List.mem_append.mpr
        right
        exact (hinv.outEdgesCorrect _ _ hn j).mpr ⟨e', he', hcon⟩
      · intro hcon
        apply hj
        apply List.mem_append.mpr
        left
        exact (hinv.inEdgesCorrect _ _ hn j).mpr ⟨e', he', hcon⟩

theorem inv_removeNode {g : Graph} {h : Handle} {r : Graph × List Notif}
    (hinv : Inv g) (heq : removeNode g h = .ok r) : Inv r.1 := by
  rw [removeNode] at heq
  by_cases ho : h.owner = g.gid
  · rw [if_pos ho] at heq
    cases hl : lookupKey h.id g.nodes with
    | none =>
      rw [hl] at heq
      cases heq
    | some n =>
      rw [hl] at heq
      injection heq with heq
      rw [← heq]
      exact inv_removeNodeCore hinv hl
  · rw [if_neg ho] at heq
    cases heq

theorem inv_insertGroup {g : Graph} (hinv : Inv g) : Inv (insertGroup g).1 := by
  obtain ⟨knd, ked, kgd, rnd, nlt, elt, glt, ind, ond, icc, occ, inc, onc, epo, rc, grc,
    mc, mnd⟩ := hinv
  have hfresh : g.nextId ∉ keysOf g.groups := fun h => lt_irrefl _ (glt _ h)
  have hgn : (insertGroup g).1.nodes = g.nodes := rfl
  have hge : (insertGroup g).1.edges = g.edges := rfl
  have hgg : (insertGroup g).1.groups
      = g.groups ++ [(g.nextId, ({ nodes := [] } : GroupRec))] := rfl
  have hgr : (insertGroup g).1.rootNodes = g.rootNodes := rfl
  have hgx : (insertGroup g).1.nextId = g.nextId + 1 := rfl
  have hcase : ∀ c grp, lookupKey c (insertGroup g).1.groups = some grp →
      lookupKey c g.groups = some grp ∨ (c = g.nextId ∧ grp = { nodes := [] }) := by
    intro c grp h
    rw [hgg, lookupKey_append] at h
    cases hl : lookupKey c g.groups with
    | some v =>
      rw [hl] at h
      exact Or.inl h
    | none =>
      rw [hl] at h
      have h' : lookupKey c [(g.nextId, ({ nodes := [] } : GroupRec))] = some grp := h
      rw [lookupKey_cons] at h'
      by_cases hc : g.nextId = c
      · simp only [if_pos hc] at h'
        injection h' with h'
        exact Or.inr ⟨hc.symm, h'.symm⟩
      · simp only [if_neg hc] at h'
        simp at h'
  have hold : ∀ c (grp : GroupRec), lookupKey c g.groups = some grp →
      lookupKey c (insertGroup g).1.groups = some grp := by
    intro c grp h
    rw [hgg, lookupKey_append, h]
  refine ⟨?_, ?_, ?_, ?_, ?_, ?_, ?_, ?_, ?_, ?_, ?_, ?_, ?_, ?_, ?_, ?_, ?_, ?_⟩
  · rw [hgn]; exact knd
  · rw [hge]; exact ked
  · rw [hgg, keysOf_append]
    refine kgd.append (List.nodup_singleton _) ?_
    intro x hx hx2
    rcases List.mem_cons.mp hx2 with h2 | h2
    · have h3 : x = g.nextId := h2
      exact hfresh (h3 ▸ hx)
    · simp at h2
  · rw [hgr]; exact rnd
  · intro k hk
    rw [hgn] at hk
    rw [hgx]
    exact Nat.lt_succ_of_lt (nlt _ hk)
  · intro k hk
    rw [hge] at hk
    rw [hgx]
    exact Nat.lt_succ_of_lt (elt _ hk)
  · intro k hk
    rw [hgg, keysOf_append] at hk
    rw [hgx]
    rcases List.mem_append.mp hk with h2 | h2
    · exact Nat.lt_succ_of_lt (glt _ h2)
    · rcases List.mem_cons.mp h2 with h3 | h3
      · have h4 : k = g.nextId := h3
        exact h4 ▸ Nat.lt_succ_self _
      · simp at h3
  · intro k n hn
    rw [hgn] at hn
    exact ind _ _ hn
  · intro k n hn
    rw [hgn] at hn
    exact ond _ _ hn
  · intro k n hn j
    rw [hgn] at hn
    rw [hge]
    exact icc _ _ hn j
  · intro k n hn j
    rw [hgn] at hn
    rw [hge]
    exact occ _ _ hn j
  · intro k n hn
    rw [hgn] at hn
    rw [hge]
    exact inc _ _ hn
  · intro k n hn
    rw [hgn] at hn
    rw [hge]
    exact onc _ _ hn
  · intro j e he
    rw [hge] at he
    rw [hgn]
    exact epo _ _ he
  · intro x
    rw [hgr, hgn]
    exact rc x
  · intro k n hn c hc
    rw [hgn] at hn
    obtain ⟨grp, hgrp2, hmem⟩ := grc _ _ hn _ hc
    exact ⟨grp, hold _ _ hgrp2, hmem⟩
  · intro c grp hgrp2 m hm
    rw [hgn]
    rcases hcase _ _ hgrp2 with h2 | ⟨-, h2⟩
    · exact mc _ _ h2 _ hm
    · rw [h2] at hm
      simp at hm
  · intro c grp hgrp2
    rcases hcase _ _ hgrp2 with h2 | ⟨-, h2⟩
    · exact mnd _ _ h2
    · rw [h2]
      exact List.nodup_nil

theorem inv_groupNodeAux {g : Graph} (hinv : Inv g) (N G : Nat)
    (hN : (lookupKey N g.nodes).isSome = true)
    (hG : (lookupKey G g.groups).isSome = true)
    (R1 : List (Nat × GroupRec))
    (hR1keys : keysOf R1 = keysOf g.groups)
    (hR1 : ∀ c, lookupKey c R1 = (lookupKey c g.groups).map
      (fun grp => { grp with nodes := grp.nodes.filter (fun m => m ≠ N) })) :
    Inv { g with
      nodes := updKey N (fun n => { n with group := some G }) g.nodes
      groups := updKey G (fun grp => { grp with nodes := grp.nodes ++ [N] }) R1 } := by
  obtain ⟨knd, ked, kgd, rnd, nlt, elt, glt, ind, ond, icc, occ, inc, onc, epo, rc, grc,
    mc, mnd⟩ := hinv
  set N2 := updKey N (fun n => { n with group := some G }) g.nodes with hN2
  set G2 := updKey G (fun grp => { grp with nodes := grp.nodes ++ [N] }) R1 with hG2
  have hgn : ({ g with nodes := N2, groups := G2 } : Graph).nodes = N2 := rfl
  have hge : ({ g with nodes := N2, groups := G2 } : Graph).edges = g.edges := rfl
  have hgg : ({ g with nodes := N2, groups := G2 } : Graph).groups = G2 := rfl
  have hgr : ({ g with nodes := N2, groups := G2 } : Graph).rootNodes = g.rootNodes := rfl
  have hgx : ({ g with nodes := N2, groups := G2 } : Graph).nextId = g.nextId := rfl
  have hcharN : ∀ k n, lookupKey k N2 = some n →
      ∃ n₀, lookupKey k g.nodes = some n₀ ∧
        n.inEdges = n₀.inEdges ∧ n.outEdges = n₀.outEdges ∧
        n.inNodes = n₀.inNodes ∧ n.outNodes = n₀.outNodes ∧
        n.group = (if k = N then some G else n₀.group) := by
    intro k n hk
    rw [hN2, lookupKey_updKey] at hk
    by_cases hkN : k = N
    · rw [if_pos hkN] at hk
      cases hl : lookupKey k g.nodes with
      | some v =>
        rw [hl] at hk
        simp only [Option.map_some'] at hk
        injection hk with hk
        refine ⟨v, rfl, ?_⟩
        rw [← hk]
        simp [if_pos hkN]
      | none =>
        rw [hl] at hk
        simp at hk
    · rw [if_neg hkN] at hk
      refine ⟨n, hk, ?_⟩
      simp [if_neg hkN]
  have hforwN : ∀ k n₀, lookupKey k g.nodes = some n₀ →
      ∃ n, lookupKey k N2 = some n ∧
        n.inEdges = n₀.inEdges ∧ n.outEdges = n₀.outEdges ∧
        n.inNodes = n₀.inNodes ∧ n.outNodes = n₀.outNodes ∧
        n.group = (if k = N then some G else n₀.group) := by
    intro k n₀ hk
    rw [hN2, lookupKey_updKey, hk]
    by_cases hkN : k = N
    · rw [if_pos hkN]
      simp only [Option.map_some']
      refine ⟨_, rfl, ?_⟩
      simp [if_pos hkN]
    · rw [if_neg hkN]
      refine ⟨_, rfl, ?_⟩
      simp [if_neg hkN]
  have hsome : ∀ k, (lookupKey k N2).isSome = (lookupKey k g.nodes).isSome := by
    intro k
    rw [hN2, lookupKey_updKey]
    by_cases hkN : k = N
    · rw [if_pos hkN]
      cases lookupKey k g.nodes <;> simp
    · rw [if_neg hkN]
  have hcharG : ∀ c, lookupKey c G2 = (lookupKey c g.groups).map
      (fun grp =>
        if c = G
        then { grp with nodes := grp.nodes.filter (fun m => m ≠ N) ++ [N] }
        else { grp with nodes := grp.nodes.filter (fun m => m ≠ N) }) := by
    intro c
    rw [hG2, lookupKey_updKey, hR1 c]
    by_cases hcG : c = G
    · rw [if_pos hcG]
      cases lookupKey c g.groups <;> simp [hcG]
    · rw [if_neg hcG]
      cases lookupKey c g.groups <;> simp [hcG]
  refine ⟨?_, ?_, ?_, ?_, ?_, ?_, ?_, ?_, ?_, ?_, ?_, ?_, ?_, ?_, ?_, ?_, ?_, ?_⟩
  · rw [hgn, hN2, keysOf_updKey]; exact knd
  · rw [hge]; exact ked
  · rw [hgg, hG2, keysOf_updKey, hR1keys]; exact kgd
  · rw [hgr]; exact rnd
  · intro k hk
    rw [hgn, hN2, keysOf_updKey] at hk
    rw [hgx]
    exact nlt _ hk
  · intro k hk
    rw [hge] at hk
    rw [hgx]
    exact elt _ hk
  · intro k hk
    rw [hgg, hG2, keysOf_updKey, hR1keys] at hk
    rw [hgx]
    exact glt _ hk
  · intro k n hn
    rw [hgn] at hn
    obtain ⟨n₀, hn₀, hie, -, -, -, -⟩ := hcharN _ _ hn
    rw [hie]
    exact ind _ _ hn₀
  · intro k n hn
    rw [hgn] at hn
    obtain ⟨n₀, hn₀, -, hoe, -, -, -⟩ := hcharN _ _ hn
    rw [hoe]
    exact ond _ _ hn₀
  · intro k n hn j
    rw [hgn] at hn
    rw [hge]
    obtain ⟨n₀, hn₀, hie, -, -, -, -⟩ := hcharN _ _ hn
    rw [hie]
    exact icc _ _ hn₀ j
  · intro k n hn j
    rw [hgn] at hn
    rw [hge]
    obtain ⟨n₀, hn₀, -, hoe, -, -, -⟩ := hcharN _ _ hn
    rw [hoe]
    exact occ _ _ hn₀ j
  · intro k n hn
    rw [hgn] at hn
    rw [hge]
    obtain ⟨n₀, hn₀, hie, -, hin, -, -⟩ := hcharN _ _ hn
    rw [hie, hin]
    exact inc _ _ hn₀
  · intro k n hn
    rw [hgn] at hn
    rw [hge]
    obtain ⟨n₀, hn₀, -, hoe, -, hon, -⟩ := hcharN _ _ hn
    rw [hoe, hon]
    exact onc _ _ hn₀
  · intro j e he
    rw [hge] at he
    rw [hgn, hsome, hsome]
    exact epo _ _ he
  · intro x
    rw [hgr, hgn]
    rw [rc x]
    constructor
    · rintro ⟨n₀, hn₀, hni⟩
      obtain ⟨n, hn, hie, -, -, -, -⟩ := hforwN _ _ hn₀
      exact ⟨n, hn, hie.trans hni⟩
    · rintro ⟨n, hn, hni⟩
      obtain ⟨n₀, hn₀, hie, -, -, -, -⟩ := hcharN _ _ hn
      exact ⟨n₀, hn₀, hie.symm.trans hni⟩
  · intro k n hn c hc
    rw [hgn] at hn
    rw [hgg, hcharG c]
    obtain ⟨n₀, hn₀, -, -, -, -, hgrp⟩ := hcharN _ _ hn
    rw [hgrp] at hc
    by_cases hkN : k = N
    · rw [if_pos hkN] at hc
      injection hc with hc
      subst hc
      obtain ⟨grpG, hgrpG⟩ := Option.isSome_iff_exists.mp hG
      rw [hgrpG]
      simp only [Option.map_some', if_pos rfl]
      refine ⟨_, rfl, ?_⟩
      simp [hkN]
    · rw [if_neg hkN] at hc
      obtain ⟨grp, hgrp2, hkmem⟩ := grc _ _ hn₀ _ hc
      rw [hgrp2]
      simp only [Option.map_some']
      by_cases hcG : c = G
      · rw [if_pos hcG]
        refine ⟨_, rfl, ?_⟩
        apply List.mem_append.mpr
        left
        rw [List.mem_filter]
        exact ⟨hkmem, by simpa using hkN⟩
      · rw [if_neg hcG]
        refine ⟨_, rfl, ?_⟩
        rw [List.mem_filter]
        exact ⟨hkmem, by simpa using hkN⟩
  · intro c grp hgrp2 m hm
    rw [hgg, hcharG c] at hgrp2
    rw [hgn]
    cases hl : lookupKey c g.groups with
    | none =>
      rw [hl] at hgrp2
      cases hgrp2
    | some grp0 =>
      rw [hl] at hgrp2
      simp only [Option.map_some'] at hgrp2
      injection hgrp2 with hgrp2
      by_cases hcG : c = G
      · rw [if_pos hcG] at hgrp2
        rw [← hgrp2] at hm
        rcases List.mem_append.mp hm with h2 | h2
        · have hm' := List.mem_filter.mp h2
          have hmN : m ≠ N := by simpa using hm'.2
          obtain ⟨n₀, hn₀, hng⟩ := mc _ _ hl _ hm'.1
          obtain ⟨n, hn, -, -, -, -, hg3⟩ := hforwN _ _ hn₀
          refine ⟨n, hn, ?_⟩
          rw [hg3, if_neg hmN, hng]
        · have hmN : m = N := by simpa using h2
          subst hmN
          obtain ⟨n₀, hlm⟩ := Option.isSome_iff_exists.mp hN
          obtain ⟨n, hn, -, -, -, -, hg3⟩ := hforwN _ _ hlm
          refine ⟨n, hn, ?_⟩
          rw [hg3, if_pos rfl, hcG]
      · rw [if_neg hcG] at hgrp2
        rw [← hgrp2] at hm
        have hm' := List.mem_filter.mp hm
        have hmN : m ≠ N := by simpa using hm'.2
        obtain ⟨n₀, hn₀, hng⟩ := mc _ _ hl _ hm'.1
        obtain ⟨n, hn, -, -, -, -, hg3⟩ := hforwN _ _ hn₀
        refine ⟨n, hn, ?_⟩
        rw [hg3, if_neg hmN, hng]
  · intro c grp hgrp2
    rw [hgg, hcharG c] at hgrp2
    cases hl : lookupKey c g.groups with
    | none =>
      rw [hl] at hgrp2
      cases hgrp2
    | some grp0 =>
      rw [hl] at hgrp2
      simp only [Option.map_some'] at hgrp2
      injection hgrp2 with hgrp2
      by_cases hcG : c = G
      · rw [if_pos hcG] at hgrp2
        rw [← hgrp2]
        refine ((mnd _ _ hl).filter _).append (List.nodup_singleton _) ?_
        intro x hx hx2
        rcases List.mem_cons.mp hx2 with h2 | h2
        · subst h2
          have := (List.mem_filter.mp hx).2
          simp at this
        · simp at h2
      · rw [if_neg hcG] at hgrp2
        rw [← hgrp2]
        exact (mnd _ _ hl).filter _

theorem inv_groupNode {g : Graph} {nh gh : Handle} {r : Graph × List Notif}
    (hinv : Inv g) (heq : groupNode g nh gh = .ok r) : Inv r.1 := by
  rw [groupNode] at heq
  by_cases hc : ownsNode g nh ∧ ownsGroup g gh
  case neg =>
    rw [if_neg hc] at heq
    cases heq
  case pos =>
  rw [if_pos hc] at heq
  obtain ⟨⟨hno, hni⟩, ⟨hgo2, hgi⟩⟩ := hc
  cases hl : lookupKey nh.id g.nodes with
  | none =>
    rw [hl] at heq
    cases heq
  | some n =>
  rw [hl] at heq
  dsimp only at heq
  by_cases hsame : n.group = some gh.id
  · rw [if_pos hsame] at heq
    injection heq with heq
    rw [← heq]
    exact hinv
  · rw [if_neg hsame] at heq
    injection heq with heq
    rw [← heq]
    dsimp only
    apply inv_groupNodeAux hinv nh.id gh.id hni hgi
    · cases hgrp : n.group with
      | none => rfl
      | some a =>
        dsimp only
        exact keysOf_updKey _ _ _
    · intro c
      cases hgrp : n.group with
      | none =>
        dsimp only
        cases hlc : lookupKey c g.groups with
        | none => rfl
        | some grp =>
          simp only [Option.map_some']
          have hnid : nh.id ∉ grp.nodes := by
            intro hcon
            obtain ⟨n1, hn1, hng⟩ := hinv.membersCorrect _ _ hlc _ hcon
            rw [hl] at hn1
            injection hn1 with hn1
            rw [← hn1, hgrp] at hng
            cases hng
          have hfeq : grp.nodes.filter (fun m => m ≠ nh.id) = grp.nodes := by
            apply List.filter_eq_self.mpr
            intro m hm
            simpa using fun hcon : m = nh.id => hnid (hcon ▸ hm)
          rw [hfeq]
      | some a =>
        dsimp only
        rw [lookupKey_updKey]
        by_cases hca : c = a
        · rw [if_pos hca]
        · rw [if_neg hca]
          cases hlc : lookupKey c g.groups with
          | none => rfl
          | some grp =>
            simp only [Option.map_some']
            have hnid : nh.id ∉ grp.nodes := by
              intro hcon
              obtain ⟨n1, hn1, hng⟩ := hinv.membersCorrect _ _ hlc _ hcon
              rw [hl] at hn1
              injection hn1 with hn1
              rw [← hn1, hgrp] at hng
              injection hng with hng
              exact hca hng.symm
            have hfeq : grp.nodes.filter (fun m => m ≠ nh.id) = grp.nodes := by
              apply List.filter_eq_self.mpr
              intro m hm
              simpa using fun hcon : m = nh.id => hnid (hcon ▸ hm)
            rw [hfeq]

theorem inv_ungroupAux {g : Graph} (hinv : Inv g) (N : Nat)
    (R1 : List (Nat × GroupRec))
    (hR1keys : keysOf R1 = keysOf g.groups)
    (hR1 : ∀ c, lookupKey c R1 = (lookupKey c g.groups).map
      (fun grp => { grp with nodes := grp.nodes.filter (fun m => m ≠ N) })) :
    Inv { g with
      nodes := updKey N (fun n => { n with group := none }) g.nodes
      groups := R1 } := by
  obtain ⟨knd, ked, kgd, rnd, nlt, elt, glt, ind, ond, icc, occ, inc, onc, epo, rc, grc,
    mc, mnd⟩ := hinv
  set N2 := updKey N (fun n => { n with group := none }) g.nodes with hN2
  have hgn : ({ g with nodes := N2, groups := R1 } : Graph).nodes = N2 := rfl
  have hge : ({ g with nodes := N2, groups := R1 } : Graph).edges = g.edges := rfl
  have hgg : ({ g with nodes := N2, groups := R1 } : Graph).groups = R1 := rfl
  have hgr : ({ g with nodes := N2, groups := R1 } : Graph).rootNodes = g.rootNodes := rfl
  have hgx : ({ g with nodes := N2, groups := R1 } : Graph).nextId = g.nextId := rfl
  have hcharN : ∀ k n, lookupKey k N2 = some n →
      ∃ n₀, lookupKey k g.nodes = some n₀ ∧
        n.inEdges = n₀.inEdges ∧ n.outEdges = n₀.outEdges ∧
        n.inNodes = n₀.inNodes ∧ n.outNodes = n₀.outNodes ∧
        n.group = (if k = N then none else n₀.group) := by
    intro k n hk
    rw [hN2, lookupKey_updKey] at hk
    by_cases hkN : k = N
    · rw [if_pos hkN] at hk
      cases hl : lookupKey k g.nodes with
      | some v =>
        rw [hl] at hk
        simp only [Option.map_some'] at hk
        injection hk with hk
        refine ⟨v, rfl, ?_⟩
        rw [← hk]
        simp [if_pos hkN]
      | none =>
        rw [hl] at hk
        simp at hk
    · rw [if_neg hkN] at hk
      refine ⟨n, hk, ?_⟩
      simp [if_neg hkN]
  have hforwN : ∀ k n₀, lookupKey k g.nodes = some n₀ →
      ∃ n, lookupKey k N2 = some n ∧
        n.inEdges = n₀.inEdges ∧ n.outEdges = n₀.outEdges ∧
        n.inNodes = n₀.inNodes ∧ n.outNodes = n₀.outNodes ∧
        n.group = (if k = N then none else n₀.group) := by
    intro k n₀ hk
    rw [hN2, lookupKey_updKey, hk]
    by_cases hkN : k = N
    · rw [if_pos hkN]
      simp only [Option.map_some']
      refine ⟨_, rfl, ?_⟩
      simp [if_pos hkN]
    · rw [if_neg hkN]
      refine ⟨_, rfl, ?_⟩
      simp [if_neg hkN]
  have hsome : ∀ k, (lookupKey k N2).isSome = (lookupKey k g.nodes).isSome := by
    intro k
    rw [hN2, lookupKey_updKey]
    by_cases hkN : k = N
    · rw [if_pos hkN]
      cases lookupKey k g.nodes <;> simp
    · rw [if_neg hkN]
  refine ⟨?_, ?_, ?_, ?_, ?_, ?_, ?_, ?_, ?_, ?_, ?_, ?_, ?_, ?_, ?_, ?_, ?_, ?_⟩
  · rw [hgn, hN2, keysOf_updKey]; exact knd
  · rw [hge]; exact ked
  · rw [hgg, hR1keys]; exact kgd
  · rw [hgr]; exact rnd
  · intro k hk
    rw [hgn, hN2, keysOf_updKey] at hk
    rw [hgx]
    exact nlt _ hk
  · intro k hk
    rw [hge] at hk
    rw [hgx]
    exact elt _ hk
  · intro k hk
    rw [hgg, hR1keys] at hk
    rw [hgx]
    exact glt _ hk
  · intro k n hn
    rw [hgn] at hn
    obtain ⟨n₀, hn₀, hie, -, -, -, -⟩ := hcharN _ _ hn
    rw [hie]
    exact ind _ _ hn₀
  · intro k n hn
    rw [hgn] at hn
    obtain ⟨n₀, hn₀, -, hoe, -, -, -⟩ := hcharN _ _ hn
    rw [hoe]
    exact ond _ _ hn₀
  · intro k n hn j
    rw [hgn] at hn
    rw [hge]
    obtain ⟨n₀, hn₀, hie, -, -, -, -⟩ := hcharN _ _ hn
    rw [hie]
    exact icc _ _ hn₀ j
  · intro k n hn j
    rw [hgn] at hn
    rw [hge]
    obtain ⟨n₀, hn₀, -, hoe, -, -, -⟩ := hcharN _ _ hn
    rw [hoe]
    exact occ _ _ hn₀ j
  · intro k n hn
    rw [hgn] at hn
    rw [hge]
    obtain ⟨n₀, hn₀, hie, -, hin, -, -⟩ := hcharN _ _ hn
    rw [hie, hin]
    exact inc _ _ hn₀
  · intro k n hn
    rw [hgn] at hn
    rw [hge]
    obtain ⟨n₀, hn₀, -, hoe, -, hon, -⟩ := hcharN _ _ hn
    rw [hoe, hon]
    exact onc _ _ hn₀
  · intro j e he
    rw [hge] at he
    rw [hgn, hsome, hsome]
    exact epo _ _ he
  · intro x
    rw [hgr, hgn, rc x]
    constructor
    · rintro ⟨n₀, hn₀, hni⟩
      obtain ⟨n, hn, hie, -, -, -, -⟩ := hforwN _ _ hn₀
      exact ⟨n, hn, hie.trans hni⟩
    · rintro ⟨n, hn, hni⟩
      obtain ⟨n₀, hn₀, hie, -, -, -, -⟩ := hcharN _ _ hn
      exact ⟨n₀, hn₀, hie.symm.trans hni⟩
  · intro k n hn c hc
    rw [hgn] at hn
    rw [hgg, hR1 c]
    obtain ⟨n₀, hn₀, -, -, -, -, hgrp⟩ := hcharN _ _ hn
    rw [hgrp] at hc
    by_cases hkN : k = N
    · rw [if_pos hkN] at hc
      cases hc
    · rw [if_neg hkN] at hc
      obtain ⟨grp, hgrp2, hkmem⟩ := grc _ _ hn₀ _ hc
      rw [hgrp2]
      simp only [Option.map_some']
      refine ⟨_, rfl, ?_⟩
      rw [List.mem_filter]
      exact ⟨hkmem, by simpa using hkN⟩
  · intro c grp hgrp2 m hm
    rw [hgg, hR1 c] at hgrp2
    rw [hgn]
    cases hlc : lookupKey c g.groups with
    | none =>
      rw [hlc] at hgrp2
      cases hgrp2
    | some grp0 =>
      rw [hlc] at hgrp2
      simp only [Option.map_some'] at hgrp2
      injection hgrp2 with hgrp2
      rw [← hgrp2] at hm
      have hm' := List.mem_filter.mp hm
      have hmN : m ≠ N := by simpa using hm'.2
      obtain ⟨n₀, hn₀, hng⟩ := mc _ _ hlc _ hm'.1
      obtain ⟨n, hn, -, -, -, -, hg3⟩ := hforwN _ _ hn₀
      refine ⟨n, hn, ?_⟩
      rw [hg3, if_neg hmN, hng]
  · intro c grp hgrp2
    rw [hgg, hR1 c] at hgrp2
    cases hlc : lookupKey c g.groups with
    | none =>
      rw [hlc] at hgrp2
      cases hgrp2
    | some grp0 =>
      rw [hlc] at hgrp2
      simp only [Option.map_some'] at hgrp2
      injection hgrp2 with hgrp2
      rw [← hgrp2]
      exact (mnd _ _ hlc).filter _

theorem inv_ungroupNode {g : Graph} {nh : Handle} {r : Graph × List Notif}
    (hinv : Inv g) (heq : ungroupNode g nh = .ok r) : Inv r.1 := by
  rw [ungroupNode] at heq
  by_cases hc : ownsNode g nh
  case neg =>
    rw [if_neg hc] at heq
    cases heq
  case pos =>
  rw [if_pos hc] at heq
  cases hl : lookupKey nh.id g.nodes with
  | none =>
    rw [hl] at heq
    cases heq
  | some n =>
  rw [hl] at heq
  dsimp only at heq
  cases hgrp : n.group with
  | none =>
    rw [hgrp] at heq
    injection heq with heq
    rw [← heq]
    exact hinv
  | some a =>
  rw [hgrp] at heq
  injection heq with heq
  rw [← heq]
  dsimp only
  apply inv_ungroupAux hinv nh.id
  · exact keysOf_updKey _ _ _
  · intro c
    rw [lookupKey_updKey]
    by_cases hca : c = a
    · rw [if_pos hca]
    · rw [if_neg hca]
      cases hlc : lookupKey c g.groups with
      | none => rfl
      | some grp =>
        simp only [Option.map_some']
        have hnid : nh.id ∉ grp.nodes := by
          intro hcon
          obtain ⟨n1, hn1, hng⟩ := hinv.membersCorrect _ _ hlc _ hcon
          rw [hl] at hn1
          injection hn1 with hn1
          rw [← hn1, hgrp] at hng
          injection hng with hng
          exact hca hng.symm
        have hfeq : grp.nodes.filter (fun m => m ≠ nh.id) = grp.nodes := by
          apply List.filter_eq_self.mpr
          intro m hm
          simpa using fun hcon : m = nh.id => hnid (hcon ▸ hm)
        rw [hfeq]

theorem clearFold_lookup (ms : List Nat) (l : List (Nat × NodeRec)) (k : Nat) :
    lookupKey k (ms.foldl (fun ns m => updKey m (fun n => { n with group := none }) ns) l)
      = if k ∈ ms then (lookupKey k l).map (fun n => { n with group := none })
        else lookupKey k l := by
  induction ms generalizing l with
  | nil => simp
  | cons m rest ih =>
    rw [List.foldl_cons, ih]
    by_cases hkr : k ∈ rest
    · rw [if_pos hkr, if_pos (List.mem_cons.mpr (Or.inr hkr)), lookupKey_updKey]
      by_cases hkm : k = m
      · rw [if_pos hkm]
        cases lookupKey k l <;> rfl
      · rw [if_neg hkm]
    · rw [if_neg hkr, lookupKey_updKey]
      by_cases hkm : k = m
      · rw [if_pos hkm, if_pos (List.mem_cons.mpr (Or.inl hkm))]
      · rw [if_neg hkm, if_neg (fun hcon => by
          rcases List.mem_cons.mp hcon with h2 | h2
          · exact hkm h2
          · exact hkr h2)]

theorem clearFold_keys (ms : List Nat) (l : List (Nat × NodeRec)) :
    keysOf (ms.foldl (fun ns m => updKey m (fun n => { n with group := none }) ns) l)
      = keysOf l := by
  induction ms generalizing l with
  | nil => rfl
  | cons m rest ih =>
    rw [List.foldl_cons, ih, keysOf_updKey]

theorem inv_removeGroup {g : Graph} {gh : Handle} {r : Graph × List Notif}
    (hinv : Inv g) (heq : removeGroup g gh = .ok r) : Inv r.1 := by
  rw [removeGroup] at heq
  by_cases hc : ownsGroup g gh
  case neg =>
    rw [if_neg hc] at heq
    cases heq
  case pos =>
  rw [if_pos hc] at heq
  cases hlG : lookupKey gh.id g.groups with
  | none =>
    rw [hlG] at heq
    cases heq
  | some grpG =>
  rw [hlG] at heq
  injection heq with heq
  rw [← heq]
  dsimp only
  obtain ⟨knd, ked, kgd, rnd, nlt, elt, glt, ind, ond, icc, occ, inc, onc, epo, rc, grc,
    mc, mnd⟩ := hinv
  set N2 := grpG.nodes.foldl
    (fun ns m => updKey m (fun n => { n with group := none }) ns) g.nodes with hN2
  have hgn : ({ g with nodes := N2, groups := eraseKey gh.id g.groups } : Graph).nodes
      = N2 := rfl
  have hge : ({ g with nodes := N2, groups := eraseKey gh.id g.groups } : Graph).edges
      = g.edges := rfl
  have hgg : ({ g with nodes := N2, groups := eraseKey gh.id g.groups } : Graph).groups
      = eraseKey gh.id g.groups := rfl
  have hgr : ({ g with nodes := N2, groups := eraseKey gh.id g.groups } : Graph).rootNodes
      = g.rootNodes := rfl
  have hgx : ({ g with nodes := N2, groups := eraseKey gh.id g.groups } : Graph).nextId
      = g.nextId := rfl
  have hlookN : ∀ k, lookupKey k N2 =
      if k ∈ grpG.nodes
      then (lookupKey k g.nodes).map (fun n => { n with group := none })
      else lookupKey k g.nodes := by
    intro k
    rw [hN2]
    exact clearFold_lookup _ _ _
  have hcharN : ∀ k n, lookupKey k N2 = some n →
      ∃ n₀, lookupKey k g.nodes = some n₀ ∧
        n.inEdges = n₀.inEdges ∧ n.outEdges = n₀.outEdges ∧
        n.inNodes = n₀.inNodes ∧ n.outNodes = n₀.outNodes ∧
        n.group = (if k ∈ grpG.nodes then none else n₀.group) := by
    intro k n hk
    rw [hlookN] at hk
    by_cases hkm : k ∈ grpG.nodes
    · rw [if_pos hkm] at hk
      cases hl : lookupKey k g.nodes with
      | some v =>
        rw [hl] at hk
        simp only [Option.map_some'] at hk
        injection hk with hk
        refine ⟨v, rfl, ?_⟩
        rw [← hk]
        simp [if_pos hkm]
      | none =>
        rw [hl] at hk
        simp at hk
    · rw [if_neg hkm] at hk
      refine ⟨n, hk, ?_⟩
      simp [if_neg hkm]
  have hforwN : ∀ k n₀, lookupKey k g.nodes = some n₀ →
      ∃ n, lookupKey k N2 = some n ∧
        n.inEdges = n₀.inEdges ∧ n.outEdges = n₀.outEdges ∧
        n.inNodes = n₀.inNodes ∧ n.outNodes = n₀.outNodes ∧
        n.group = (if k ∈ grpG.nodes then none else n₀.group) := by
    intro k n₀ hk
    rw [hlookN, hk]
    by_cases hkm : k ∈ grpG.nodes
    · rw [if_pos hkm]
      simp only [Option.map_some']
      refine ⟨_, rfl, ?_⟩
      simp [if_pos hkm]
    · rw [if_neg hkm]
      refine ⟨_, rfl, ?_⟩
      simp [if_neg hkm]
  have hsome : ∀ k, (lookupKey k N2).isSome = (lookupKey k g.nodes).isSome := by
    intro k
    rw [hlookN]
    by_cases hkm : k ∈ grpG.nodes
    · rw [if_pos hkm]
      cases lookupKey k g.nodes <;> simp
    · rw [if_neg hkm]
  have hlookG : ∀ c, lookupKey c (eraseKey gh.id g.groups) =
      if c = gh.id then none else lookupKey c g.groups :=
    fun c => lookupKey_eraseKey _ _ _
  refine ⟨?_, ?_, ?_, ?_, ?_, ?_, ?_, ?_, ?_, ?_, ?_, ?_, ?_, ?_, ?_, ?_, ?_, ?_⟩
  · rw [hgn, hN2, clearFold_keys]; exact knd
  · rw [hge]; exact ked
  · rw [hgg, keysOf_eraseKey]
    exact kgd.filter _
  · rw [hgr]; exact rnd
  · intro k hk
    rw [hgn, hN2, clearFold_keys] at hk
    rw [hgx]
    exact nlt _ hk
  · intro k hk
    rw [hge] at hk
    rw [hgx]
    exact elt _ hk
  · intro k hk
    rw [hgg, keysOf_eraseKey] at hk
    rw [hgx]
    exact glt _ (List.mem_of_mem_filter hk)
  · intro k n hn
    rw [hgn] at hn
    obtain ⟨n₀, hn₀, hie, -, -, -, -⟩ := hcharN _ _ hn
    rw [hie]
    exact ind _ _ hn₀
  · intro k n hn
    rw [hgn] at hn
    obtain ⟨n₀, hn₀, -, hoe, -, -, -⟩ := hcharN _ _ hn
    rw [hoe]
    exact ond _ _ hn₀
  · intro k n hn j
    rw [hgn] at hn
    rw [hge]
    obtain ⟨n₀, hn₀, hie, -, -, -, -⟩ := hcharN _ _ hn
    rw [hie]
    exact icc _ _ hn₀ j
  · intro k n hn j
    rw [hgn] at hn
    rw [hge]
    obtain ⟨n₀, hn₀, -, hoe, -, -, -⟩ := hcharN _ _ hn
    rw [hoe]
    exact occ _ _ hn₀ j
  · intro k n hn
    rw [hgn] at hn
    rw [hge]
    obtain ⟨n₀, hn₀, hie, -, hin, -, -⟩ := hcharN _ _ hn
    rw [hie, hin]
    exact inc _ _ hn₀
  · intro k n hn
    rw [hgn] at hn
    rw [hge]
    obtain ⟨n₀, hn₀, -, hoe, -, hon, -⟩ := hcharN _ _ hn
    rw [hoe, hon]
    exact onc _ _ hn₀
  · intro j e he
    rw [hge] at he
    rw [hgn, hsome, hsome]
    exact epo _ _ he
  · intro x
    rw [hgr, hgn, rc x]
    constructor
    · rintro ⟨n₀, hn₀, hni⟩
      obtain ⟨n, hn, hie, -, -, -, -⟩ := hforwN _ _ hn₀
      exact ⟨n, hn, hie.trans hni⟩
    · rintro ⟨n, hn, hni⟩
      obtain ⟨n₀, hn₀, hie, -, -, -, -⟩ := hcharN _ _ hn
      exact ⟨n₀, hn₀, hie.symm.trans hni⟩
  · intro k n hn c hc
    rw [hgn] at hn
    rw [hgg, hlookG c]
    obtain ⟨n₀, hn₀, -, -, -, -, hgrp⟩ := hcharN _ _ hn
    rw [hgrp] at hc
    by_cases hkm : k ∈ grpG.nodes
    · rw [if_pos hkm] at hc
      cases hc
    · rw [if_neg hkm] at hc
      obtain ⟨grp, hgrp2, hkmem⟩ := grc _ _ hn₀ _ hc
      have hcG : c ≠ gh.id := by
        intro hcon
        rw [hcon, hlG] at hgrp2
        injection hgrp2 with hgrp2
        exact hkm (hgrp2 ▸ hkmem)
      rw [if_neg hcG]
      exact ⟨grp, hgrp2, hkmem⟩
  · intro c grp hgrp2 m hm
    rw [hgg, hlookG c] at hgrp2
    rw [hgn]
    by_cases hcG : c = gh.id
    · rw [if_pos hcG] at hgrp2
      cases hgrp2
    · rw [if_neg hcG] at hgrp2
      obtain ⟨n₀, hn₀, hng⟩ := mc _ _ hgrp2 _ hm
      have hmG : m ∉ grpG.nodes := by
        intro hcon
        obtain ⟨n1, hn1, hng1⟩ := mc _ _ hlG _ hcon
        rw [hn₀] at hn1
        injection hn1 with hn1
        rw [← hn1] at hng1
        rw [hng] at hng1
        injection hng1 with hng1
        exact hcG hng1
      obtain ⟨n, hn, -, -, -, -, hg3⟩ := hforwN _ _ hn₀
      refine ⟨n, hn, ?_⟩
      rw [hg3, if_neg hmG, hng]
  · intro c grp hgrp2
    rw [hgg, hlookG c] at hgrp2
    by_cases hcG : c = gh.id
    · rw [if_pos hcG] at hgrp2
      cases hgrp2
    · rw [if_neg hcG] at hgrp2
      exact mnd _ _ hgrp2

theorem inv_removeEdge {g : Graph} {h : Handle} {r : Graph × List Notif}
    (hinv : Inv g) (heq : removeEdge g h = .ok r) : Inv r.1 := by
  rw [removeEdge] at heq
  by_cases hc : ownsEdge g h
  · rw [if_pos hc] at heq
    injection heq with heq
    rw [← heq]
    exact inv_removeEdgeCore hinv h.id
  · rw [if_neg hc] at heq
    cases heq

theorem inv_applyOp {g : Graph} (hinv : Inv g) (op : Op) : Inv (applyOp g op) := by
  cases op with
  | insertNode => exact inv_insertNode hinv
  | removeNode h =>
    dsimp only [applyOp]
    cases hr : removeNode g h with
    | ok r2 => exact inv_removeNode hinv hr
    | error e => exact hinv
  | createEdge a b w =>
    dsimp only [applyOp]
    cases hr : createEdge g a b w with
    | ok r2 => exact inv_createEdge hinv hr
    | error e => exact hinv
  | removeEdge h =>
    dsimp only [applyOp]
    cases hr : removeEdge g h with
    | ok r2 => exact inv_removeEdge hinv hr
    | error e => exact hinv
  | insertGroup => exact inv_insertGroup hinv
  | removeGroup h =>
    dsimp only [applyOp]
    cases hr : removeGroup g h with
    | ok r2 => exact inv_removeGroup hinv hr
    | error e => exact hinv
  | groupNode nh gh =>
    dsimp only [applyOp]
    cases hr : groupNode g nh gh with
    | ok r2 => exact inv_groupNode hinv hr
    | error e => exact hinv
  | ungroupNode nh =>
    dsimp only [applyOp]
    cases hr : ungroupNode g nh with
    | ok r2 => exact inv_ungroupNode hinv hr
    | error e => exact hinv

theorem inv_foldl {g : Graph} (hinv : Inv g) (ops : List Op) :
    Inv (ops.foldl applyOp g) := by
  induction ops generalizing g with
  | nil => exact hinv
  | cons op rest ih =>
    rw [List.foldl_cons]
    exact ih (inv_applyOp hinv op)

/-- Every graph reachable from an empty graph through the mutation API
satisfies the structural invariant. -/
theorem inv_applyOps (gid : Nat) (ops : List Op) : Inv (applyOps gid ops) :=
  inv_foldl (inv_emptyGraph gid) ops

/-! ## Claim theorems -/

/-- C9: `GenNode::~GenNode` (gtpoGenNode.h lines 82-89) emits the
"destroyed before being removed from the graph" warning exactly when the
node's graph back-reference is still set; a node with a null
back-reference is destroyed without the diagnostic. -/
theorem destructNode_warning (n : NodeRec) :
    (destructNode n).2 = true ↔ n.graph ≠ none := by
  rw [destructNode]
  cases h : n.graph <;> simp [h]

/-- C10: `GenNode::addOutEdge` re-targets the edge: after the call the
edge's source is this node (set to it when it differed), and the edge is
registered in the out-edge set; symmetrically `addInEdge` sets the
edge's destination to this node and registers it in the in-edge set.
Both are total functions: neither call fails when the edge's endpoint
initially differs from the node. -/
theorem addEdge_retargets (n : NodeRec) (selfId eid : Nat) (e : EdgeRec) :
    (n.addOutEdge selfId eid e).2.src = selfId ∧
    (n.addInEdge selfId eid e).2.dst = selfId ∧
    eid ∈ (n.addOutEdge selfId eid e).1.outEdges ∧
    eid ∈ (n.addInEdge selfId eid e).1.inEdges := by
  refine ⟨?_, ?_, ?_, ?_⟩
  · by_cases h : e.src = selfId <;> simp [NodeRec.addOutEdge, h]
  · by_cases h : e.dst = selfId <;> simp [NodeRec.addInEdge, h]
  · simp [NodeRec.addOutEdge]
  · simp [NodeRec.addInEdge]

/-- C1: `removeOutEdge` fails with `badTopology` when the edge is not in
the out-edge set and `removeInEdge` fails with `badTopology` when the
edge is not in the in-edge set; when the edge is present the call
succeeds and the edge is no longer in the respective set afterwards (the
edge sets of a graph-owned node are duplicate-free, hence the `Nodup`
hypotheses). -/
theorem removeEdge_badTopology (n : NodeRec) (eid : Nat) (e : EdgeRec) :
    (eid ∉ n.outEdges → n.removeOutEdge eid e = .error .badTopology) ∧
    (eid ∉ n.inEdges → n.removeInEdge eid e = .error .badTopology) ∧
    (n.outEdges.Nodup → eid ∈ n.outEdges →
      ∃ n', n.removeOutEdge eid e = .ok n' ∧ eid ∉ n'.outEdges) ∧
    (n.inEdges.Nodup → eid ∈ n.inEdges →
      ∃ n', n.removeInEdge eid e = .ok n' ∧ eid ∉ n'.inEdges) := by
  refine ⟨?_, ?_, ?_, ?_⟩
  · intro h
    rw [NodeRec.removeOutEdge, if_neg h]
  · intro h
    rw [NodeRec.removeInEdge, if_neg h]
  · intro hnd hmem
    refine ⟨_, by rw [NodeRec.removeOutEdge, if_pos hmem], ?_⟩
    rw [NodeRec.eraseOutEdge]
    intro hcon
    exact (hnd.mem_erase_iff.mp hcon).1 rfl
  · intro hnd hmem
    refine ⟨_, by rw [NodeRec.removeInEdge, if_pos hmem], ?_⟩
    rw [NodeRec.eraseInEdge]
    intro hcon
    exact (hnd.mem_erase_iff.mp hcon).1 rfl

/-- A concrete node with in-edge 5 and out-edge 7, used as the C1 witness
input. -/
def nodeC1 : NodeRec :=
  { inEdges := [5], outEdges := [7], inNodes := [1], outNodes := [2],
    group := none, graph := none }

theorem removeEdge_badTopology_witness :
    nodeC1.removeOutEdge 9 ⟨0, 0, 1⟩ = .error .badTopology ∧
    nodeC1.removeInEdge 9 ⟨0, 0, 1⟩ = .error .badTopology ∧
    (∃ n', nodeC1.removeOutEdge 7 ⟨0, 0, 1⟩ = .ok n' ∧ 7 ∉ n'.outEdges) :=
  ⟨(removeEdge_badTopology _ 9 _).1 (by decide),
   (removeEdge_badTopology _ 9 _).2.1 (by decide),
   (removeEdge_badTopology _ 7 _).2.2.1 (by decide) (by decide)⟩

/-- C2: every Graph mutation called with a handle the graph does not own
(in particular a handle owned by a different graph instance) fails with
`unknownEntity`; since the operations are pure functions that return
only the error in that case, the graph value is left untouched — made
explicit by the `applyOp` no-op equations — and the handle's owning
graph, which the operation never even receives, is untouched a
fortiori. -/
theorem foreign_handle_unknownEntity (g : Graph) (h k : Handle) (w : Rat) :
    (¬ ownsNode g h →
      removeNode g h = .error .unknownEntity ∧
      createEdge g h k w = .error .unknownEntity ∧
      createEdge g k h w = .error .unknownEntity ∧
      groupNode g h k = .error .unknownEntity ∧
      ungroupNode g h = .error .unknownEntity ∧
      applyOp g (.removeNode h) = g ∧
      applyOp g (.createEdge h k w) = g ∧
      applyOp g (.createEdge k h w) = g ∧
      applyOp g (.groupNode h k) = g ∧
      applyOp g (.ungroupNode h) = g) ∧
    (¬ ownsEdge g h →
      removeEdge g h = .error .unknownEntity ∧
      applyOp g (.removeEdge h) = g) ∧
    (¬ ownsGroup g h →
      removeGroup g h = .error .unknownEntity ∧
      groupNode g k h = .error .unknownEntity ∧
      applyOp g (.removeGroup h) = g ∧
      applyOp g (.groupNode k h) = g) := by
  refine ⟨?_, ?_, ?_⟩
  · intro hno
    have hrn : removeNode g h = .error .unknownEntity := by
      rw [removeNode]
      by_cases ho : h.owner = g.gid
      · rw [if_pos ho]
        cases hl : lookupKey h.id g.nodes with
        | none => rfl
        | some n => exact absurd ⟨ho, by rw [hl]; rfl⟩ hno
      · rw [if_neg ho]
    have hce1 : createEdge g h k w = .error .unknownEntity := by
      rw [createEdge, if_neg (fun hc => hno hc.1)]
    have hce2 : createEdge g k h w = .error .unknownEntity := by
      rw [createEdge, if_neg (fun hc => hno hc.2)]
    have hgn : groupNode g h k = .error .unknownEntity := by
      rw [groupNode, if_neg (fun hc => hno hc.1)]
    have hun : ungroupNode g h = .error .unknownEntity := by
      rw [ungroupNode, if_neg hno]
    refine ⟨hrn, hce1, hce2, hgn, hun, ?_, ?_, ?_, ?_, ?_⟩
    · dsimp only [applyOp]
      rw [hrn]
    · dsimp only [applyOp]
      rw [hce1]
    · dsimp only [applyOp]
      rw [hce2]
    · dsimp only [applyOp]
      rw [hgn]
    · dsimp only [applyOp]
      rw [hun]
  · intro hne
    have hre : removeEdge g h = .error .unknownEntity := by
      rw [removeEdge, if_neg hne]
    refine ⟨hre, ?_⟩
    dsimp only [applyOp]
    rw [hre]
  · intro hng
    have hrg : removeGroup g h = .error .unknownEntity := by
      rw [removeGroup]
      by_cases ho : ownsGroup g h
      · exact absurd ho hng
      · rw [if_neg ho]
    have hgn2 : groupNode g k h = .error .unknownEntity := by
      rw [groupNode, if_neg (fun hc => hng hc.2)]
    refine ⟨hrg, hgn2, ?_, ?_⟩
    · dsimp only [applyOp]
      rw [hrg]
    · dsimp only [applyOp]
      rw [hgn2]

theorem foreign_handle_unknownEntity_witness :
    removeNode (emptyGraph 0) ⟨1, 0⟩ = .error .unknownEntity ∧
    removeEdge (emptyGraph 0) ⟨1, 0⟩ = .error .unknownEntity ∧
    removeGroup (emptyGraph 0) ⟨1, 0⟩ = .error .unknownEntity ∧
    applyOp (emptyGraph 0) (.removeNode ⟨1, 0⟩) = emptyGraph 0 :=
  ⟨((foreign_handle_unknownEntity (emptyGraph 0) ⟨1, 0⟩ ⟨0, 0⟩ 1).1 (by decide)).1,
   ((foreign_handle_unknownEntity (emptyGraph 0) ⟨1, 0⟩ ⟨0, 0⟩ 1).2.1 (by decide)).1,
   ((foreign_handle_unknownEntity (emptyGraph 0) ⟨1, 0⟩ ⟨0, 0⟩ 1).2.2 (by decide)).1,
   ((foreign_handle_unknownEntity (emptyGraph 0) ⟨1, 0⟩ ⟨0, 0⟩ 1).1 (by decide)).2.2.2.2.2.1⟩

/-- C3: after every sequence of Graph mutations applied to a fresh
graph, every owned node's in-edge set is exactly the set of owned edges
with that node as destination, its out-edge set exactly the owned edges
with it as source, and the in/out neighbour caches are multiset-equal to
the sources of the in-edges and the destinations of the out-edges — no
stale entries. -/
theorem adjacency_invariant (gid : Nat) (ops : List Op) (nid : Nat) (n : NodeRec)
    (hn : lookupKey nid (applyOps gid ops).nodes = some n) :
    (∀ eid, eid ∈ n.inEdges ↔
      ∃ e, lookupKey eid (applyOps gid ops).edges = some e ∧ e.dst = nid) ∧
    (∀ eid, eid ∈ n.outEdges ↔
      ∃ e, lookupKey eid (applyOps gid ops).edges = some e ∧ e.src = nid) ∧
    (n.inEdges.map (edgeSrcD (applyOps gid ops).edges)).Perm n.inNodes ∧
    (n.outEdges.map (edgeDstD (applyOps gid ops).edges)).Perm n.outNodes := by
  have hinv := inv_applyOps gid ops
  exact ⟨hinv.inEdgesCorrect _ _ hn, hinv.outEdgesCorrect _ _ hn,
    hinv.inNodesCache _ _ hn, hinv.outNodesCache _ _ hn⟩

/-- The mutation sequence of the C3 witness: two nodes and one edge. -/
def opsC3 : List Op := [.insertNode, .insertNode, .createEdge ⟨0, 0⟩ ⟨0, 1⟩ 1]

/-- The record of node 1 after `opsC3`. -/
def nodeC3 : NodeRec :=
  { inEdges := [2], outEdges := [], inNodes := [0], outNodes := [],
    group := none, graph := some 0 }

theorem adjacency_invariant_witness :
    (∀ eid, eid ∈ nodeC3.inEdges ↔
      ∃ e, lookupKey eid (applyOps 0 opsC3).edges = some e ∧ e.dst = 1) ∧
    (∀ eid, eid ∈ nodeC3.outEdges ↔
      ∃ e, lookupKey eid (applyOps 0 opsC3).edges = some e ∧ e.src = 1) ∧
    (nodeC3.inEdges.map (edgeSrcD (applyOps 0 opsC3).edges)).Perm nodeC3.inNodes ∧
    (nodeC3.outEdges.map (edgeDstD (applyOps 0 opsC3).edges)).Perm nodeC3.outNodes :=
  adjacency_invariant 0 opsC3 1 nodeC3 (by decide)

/-- C8: self-loops and parallel edges are permitted and never
deduplicated: `createEdge(a, a, w)` succeeds for any weight, after which
`a` is in its own in-neighbour and out-neighbour caches and its in- and
out-degree each grew by one; a second edge over the same ordered pair
also succeeds and is a distinct edge (fresh id, edge count `+2`). -/
theorem createEdge_selfLoop_parallel {g : Graph} (a : Handle) (w w' : Rat)
    (n : NodeRec) (ha : ownsNode g a) (hn : lookupKey a.id g.nodes = some n) :
    ∃ g₁ eh ns, createEdge g a a w = .ok (g₁, eh, ns) ∧
      (∃ n₁, lookupKey a.id g₁.nodes = some n₁ ∧
        a.id ∈ n₁.inNodes ∧ a.id ∈ n₁.outNodes ∧
        n₁.getInDegree = n.getInDegree + 1 ∧
        n₁.getOutDegree = n.getOutDegree + 1) ∧
      ∃ g₂ eh₂ ns₂, createEdge g₁ a a w' = .ok (g₂, eh₂, ns₂) ∧
        eh₂.id ≠ eh.id ∧ g₂.edges.length = g.edges.length + 2 := by
  have hc : ownsNode g a ∧ ownsNode g a := ⟨ha, ha⟩
  rw [createEdge, if_pos hc]
  refine ⟨_, _, _, rfl, ?_, ?_⟩
  · dsimp only
    rw [lookupKey_updKey, if_pos rfl, lookupKey_updKey, if_pos rfl, hn]
    simp only [Option.map_some']
    refine ⟨_, rfl, ?_⟩
    constructor
    · simp [NodeRec.addInEdge, NodeRec.addOutEdge]
    constructor
    · simp [NodeRec.addInEdge, NodeRec.addOutEdge]
    constructor
    · simp [NodeRec.addInEdge, NodeRec.addOutEdge, NodeRec.getInDegree]
    · simp [NodeRec.addInEdge, NodeRec.addOutEdge, NodeRec.getOutDegree]
  · have ha2 : ownsNode
        ({ g with
          nodes := updKey a.id
            (fun n => (n.addInEdge a.id g.nextId ⟨a.id, a.id, w⟩).1)
            (updKey a.id (fun n => (n.addOutEdge a.id g.nextId ⟨a.id, a.id, w⟩).1) g.nodes)
          edges := g.edges ++ [(g.nextId, ⟨a.id, a.id, w⟩)]
          rootNodes := g.rootNodes.filter (fun r => r ≠ a.id)
          nextId := g.nextId + 1 } : Graph) a := by
      refine ⟨ha.1, ?_⟩
      dsimp only
      rw [lookupKey_updKey, if_pos rfl, lookupKey_updKey, if_pos rfl, hn]
      rfl
    rw [createEdge, if_pos ⟨ha2, ha2⟩]
    refine ⟨_, _, _, rfl, ?_, ?_⟩
    · intro hcon
      have : g.nextId + 1 = g.nextId := hcon
      exact Nat.succ_ne_self _ this
    · dsimp only
      rw [List.length_append, List.length_append]
      rfl

/-- The base graph of the C8 witness: one node. -/
def gC8 : Graph := applyOps 0 [.insertNode]

theorem createEdge_selfLoop_parallel_witness :
    ∃ g₁ eh ns, createEdge gC8 ⟨0, 0⟩ ⟨0, 0⟩ (5 / 2) = .ok (g₁, eh, ns) ∧
      (∃ n₁, lookupKey 0 g₁.nodes = some n₁ ∧
        0 ∈ n₁.inNodes ∧ 0 ∈ n₁.outNodes ∧
        n₁.getInDegree =
          ({ inEdges := [], outEdges := [], inNodes := [], outNodes := [],
             group := none, graph := some 0 } : NodeRec).getInDegree + 1 ∧
        n₁.getOutDegree =
          ({ inEdges := [], outEdges := [], inNodes := [], outNodes := [],
             group := none, graph := some 0 } : NodeRec).getOutDegree + 1) ∧
      ∃ g₂ eh₂ ns₂, createEdge g₁ ⟨0, 0⟩ ⟨0, 0⟩ 1 = .ok (g₂, eh₂, ns₂) ∧
        eh₂.id ≠ eh.id ∧ g₂.edges.length = gC8.edges.length + 2 :=
  createEdge_selfLoop_parallel ⟨0, 0⟩ (5 / 2) 1 _ (by decide) (by decide)

/-- C4: `insertNode` (which always succeeds and adds the fresh node to
the root set) followed immediately by `removeNode` on the returned
handle restores the prior observable state: node count, edge count and
root-set membership — in fact the node, edge and root collections are
restored exactly. -/
theorem insert_remove_roundtrip {g : Graph} (hinv : Inv g) :
    ∃ r, removeNode (insertNode g).1 (insertNode g).2.1 = .ok r ∧
      r.1.nodes.length = g.nodes.length ∧
      r.1.edges.length = g.edges.length ∧
      (∀ x, x ∈ r.1.rootNodes ↔ x ∈ g.rootNodes) ∧
      r.1.nodes = g.nodes ∧ r.1.edges = g.edges ∧ r.1.rootNodes = g.rootNodes := by
  have hfreshN : g.nextId ∉ keysOf g.nodes := fun h => lt_irrefl _ (hinv.nodesLt _ h)
  have hfreshR : g.nextId ∉ g.rootNodes := by
    intro h
    obtain ⟨n, hn, -⟩ := (hinv.rootsCorrect _).mp h
    exact hfreshN (lookupKey_isSome_iff.mp (by rw [hn]; rfl))
  have hnodes1 : (insertNode g).1.nodes
      = g.nodes ++ [(g.nextId, { NodeRec.empty with graph := some g.gid })] := rfl
  have hnew : lookupKey g.nextId (insertNode g).1.nodes
      = some { NodeRec.empty with graph := some g.gid } := by
    rw [hnodes1, lookupKey_append, lookupKey_eq_none_of_not_mem hfreshN, lookupKey_cons]
    simp
  have hH : (insertNode g).2.1 = (⟨g.gid, g.nextId⟩ : Handle) := rfl
  have hrm : removeNode (insertNode g).1 (insertNode g).2.1 =
      .ok (removeNodeCore (insertNode g).1 g.nextId
        { NodeRec.empty with graph := some g.gid }) := by
    rw [hH, removeNode]
    have hcond : (⟨g.gid, g.nextId⟩ : Handle).owner = (insertNode g).1.gid := rfl
    rw [if_pos hcond]
    dsimp only
    rw [hnew]
  have h1 : (removeNodeCore (insertNode g).1 g.nextId
      { NodeRec.empty with graph := some g.gid }).1.nodes = g.nodes := by
    show eraseKey g.nextId
      (g.nodes ++ [(g.nextId, { NodeRec.empty with graph := some g.gid })]) = g.nodes
    rw [eraseKey_append, eraseKey_of_not_mem hfreshN, eraseKey_cons, if_pos rfl,
      eraseKey_nil, List.append_nil]
  have h2 : (removeNodeCore (insertNode g).1 g.nextId
      { NodeRec.empty with graph := some g.gid }).1.edges = g.edges := rfl
  have h3 : (removeNodeCore (insertNode g).1 g.nextId
      { NodeRec.empty with graph := some g.gid }).1.rootNodes = g.rootNodes := by
    show (g.rootNodes ++ [g.nextId]).filter (fun m => m ≠ g.nextId) = g.rootNodes
    rw [List.filter_append]
    have hnil : [g.nextId].filter (fun m => m ≠ g.nextId) = [] := by simp
    rw [hnil, List.append_nil]
    apply List.filter_eq_self.mpr
    intro x hx
    simpa using fun hcon : x = g.nextId => hfreshR (hcon ▸ hx)
  exact ⟨_, hrm, by rw [h1], by rw [h2], fun x => by rw [h3], h1, h2, h3⟩

/-- The base graph of the C4 witness: one node, one group. -/
def gC4 : Graph := applyOps 0 [.insertNode, .insertGroup]

theorem insert_remove_roundtrip_witness :
    ∃ r, removeNode (insertNode gC4).1 (insertNode gC4).2.1 = .ok r ∧
      r.1.nodes.length = gC4.nodes.length ∧
      r.1.edges.length = gC4.edges.length ∧
      (∀ x, x ∈ r.1.rootNodes ↔ x ∈ gC4.rootNodes) ∧
      r.1.nodes = gC4.nodes ∧ r.1.edges = gC4.edges ∧ r.1.rootNodes = gC4.rootNodes :=
  insert_remove_roundtrip (inv_applyOps 0 [.insertNode, .insertGroup])

/-- C7: a node can be in at most one group; regrouping a node that is in
group `a` into a different group notifies `a`'s observers of the removal
first and the target group's observers of the insertion once each, after
which the node is gone from `a`'s member list, present in the target's
member list, and its group back-reference points at the target. -/
theorem groupNode_reassign {g : Graph} (nh gh : Handle) (n : NodeRec) (a : Nat)
    (hno : ownsNode g nh) (hgo : ownsGroup g gh)
    (hn : lookupKey nh.id g.nodes = some n) (hgrp : n.group = some a)
    (hne : a ≠ gh.id) :
    ∃ g', groupNode g nh gh =
        .ok (g', [.groupMemberRemoved a nh.id, .groupMemberInserted gh.id nh.id]) ∧
      (∀ grpA, lookupKey a g'.groups = some grpA → nh.id ∉ grpA.nodes) ∧
      (∃ grpB, lookupKey gh.id g'.groups = some grpB ∧ nh.id ∈ grpB.nodes) ∧
      (∃ n', lookupKey nh.id g'.nodes = some n' ∧ n'.group = some gh.id) := by
  obtain ⟨grpG, hgrpG⟩ := Option.isSome_iff_exists.mp hgo.2
  have hsame : ¬ n.group = some gh.id := by
    rw [hgrp]
    intro hcon
    injection hcon with hcon
    exact hne hcon
  rw [groupNode, if_pos ⟨hno, hgo⟩, hn]
  dsimp only
  rw [if_neg hsame, hgrp]
  dsimp only
  refine ⟨_, rfl, ?_, ?_, ?_⟩
  · intro grpA hA
    rw [lookupKey_updKey, if_neg (fun hcon : a = gh.id => hne hcon)] at hA
    rw [lookupKey_updKey, if_pos rfl] at hA
    cases hl : lookupKey a g.groups with
    | none =>
      rw [hl] at hA
      cases hA
    | some grp0 =>
      rw [hl] at hA
      simp only [Option.map_some'] at hA
      injection hA with hA
      rw [← hA]
      intro hcon
      have := (List.mem_filter.mp hcon).2
      simp at this
  · rw [lookupKey_updKey, if_pos rfl, lookupKey_updKey,
      if_neg (fun hcon : gh.id = a => hne hcon.symm), hgrpG]
    simp only [Option.map_some']
    refine ⟨_, rfl, ?_⟩
    simp
  · rw [lookupKey_updKey, if_pos rfl, hn]
    simp only [Option.map_some']
    exact ⟨_, rfl, rfl⟩

/-- The base graph of the C7 witness: one node grouped into group 1,
and a second group 2. -/
def gC7 : Graph :=
  applyOps 0 [.insertNode, .insertGroup, .insertGroup, .groupNode ⟨0, 0⟩ ⟨0, 1⟩]

theorem groupNode_reassign_witness :
    ∃ g', groupNode gC7 ⟨0, 0⟩ ⟨0, 2⟩ =
        .ok (g', [.groupMemberRemoved 1 0, .groupMemberInserted 2 0]) ∧
      (∀ grpA, lookupKey 1 g'.groups = some grpA → 0 ∉ grpA.nodes) ∧
      (∃ grpB, lookupKey 2 g'.groups = some grpB ∧ 0 ∈ grpB.nodes) ∧
      (∃ n', lookupKey 0 g'.nodes = some n' ∧ n'.group = some 2) :=
  groupNode_reassign ⟨0, 0⟩ ⟨0, 2⟩
    { inEdges := [], outEdges := [], inNodes := [], outNodes := [],
      group := some 1, graph := some 0 } 1
    (by decide) (by decide) (by decide) (by decide) (by decide)

/-- C5: after a successful `createEdge(a, b, w)` the destination `b` is
absent from the root set, and it was removed from the root set by this
call exactly when it had zero in-edges before; after a successful
`removeEdge` the destination is in the root set exactly when its in-edge
count is now zero. -/
theorem rootset_edge_law {g : Graph} (hinv : Inv g) (a b h : Handle) (w : Rat) :
    (∀ g' eh ns, createEdge g a b w = .ok (g', eh, ns) →
      b.id ∉ g'.rootNodes ∧
      ((b.id ∈ g.rootNodes ∧ b.id ∉ g'.rootNodes) ↔ nodeInDegree g b.id = 0)) ∧
    (∀ g' ns e, removeEdge g h = .ok (g', ns) → lookupKey h.id g.edges = some e →
      (e.dst ∈ g'.rootNodes ↔ nodeInDegree g' e.dst = 0)) := by
  constructor
  · intro g' eh ns heq
    rw [createEdge] at heq
    by_cases hc : ownsNode g a ∧ ownsNode g b
    case neg =>
      rw [if_neg hc] at heq
      cases heq
    case pos =>
    rw [if_pos hc] at heq
    injection heq with heq
    injection heq with h1 heq2
    obtain ⟨nb, hnb⟩ := Option.isSome_iff_exists.mp hc.2.2
    have hroots : g'.rootNodes = g.rootNodes.filter (fun r => r ≠ b.id) := by
      rw [← h1]
    have hnotin : b.id ∉ g'.rootNodes := by
      rw [hroots]
      intro hcon
      have := (List.mem_filter.mp hcon).2
      simp at this
    refine ⟨hnotin, ?_, ?_⟩
    · rintro ⟨hb, -⟩
      obtain ⟨n, hn, hni⟩ := (hinv.rootsCorrect _).mp hb
      simp only [nodeInDegree, hn, NodeRec.getInDegree, hni]
      rfl
    · intro hdeg
      simp only [nodeInDegree, hnb, NodeRec.getInDegree] at hdeg
      refine ⟨(hinv.rootsCorrect _).mpr ⟨nb, hnb, List.length_eq_zero.mp hdeg⟩, hnotin⟩
  · intro g' ns e heq he
    rw [removeEdge] at heq
    by_cases hc : ownsEdge g h
    case neg =>
      rw [if_neg hc] at heq
      cases heq
    case pos =>
    rw [if_pos hc] at heq
    injection heq with heq
    rw [removeEdgeCore_some he] at heq
    injection heq with h1 h2
    obtain ⟨nD, hnD⟩ := Option.isSome_iff_exists.mp (hinv.edgeEndpointsOwned _ _ he).2
    have hmem : h.id ∈ nD.inEdges :=
      (hinv.inEdgesCorrect _ _ hnD h.id).mpr ⟨e, he, rfl⟩
    have hlook2 : ∃ nD', lookupKey e.dst
        (updKey e.dst (fun n => n.eraseInEdge h.id e.src)
          (updKey e.src (fun n => n.eraseOutEdge h.id e.dst) g.nodes)) = some nD' ∧
        nD'.inEdges = nD.inEdges.erase h.id := by
      rw [lookupKey_updKey, if_pos rfl, lookupKey_updKey]
      by_cases hds : e.dst = e.src
      · rw [if_pos hds, hnD]
        simp only [Option.map_some']
        exact ⟨_, rfl, rfl⟩
      · rw [if_neg hds, hnD]
        simp only [Option.map_some']
        exact ⟨_, rfl, rfl⟩
    obtain ⟨nD', hnD', hie'⟩ := hlook2
    have hde : dstEmptyAfter
        (updKey e.dst (fun n => n.eraseInEdge h.id e.src)
          (updKey e.src (fun n => n.eraseOutEdge h.id e.dst) g.nodes)) e.dst
        = nD'.inEdges.isEmpty := by
      rw [dstEmptyAfter, hnD']
    have hdeg : nodeInDegree g' e.dst = nD'.inEdges.length := by
      have hgn : g'.nodes = updKey e.dst (fun n => n.eraseInEdge h.id e.src)
          (updKey e.src (fun n => n.eraseOutEdge h.id e.dst) g.nodes) := by
        rw [← h1]
      simp only [nodeInDegree, hgn, hnD', NodeRec.getInDegree]
    have hgr : g'.rootNodes =
        if dstEmptyAfter
            (updKey e.dst (fun n => n.eraseInEdge h.id e.src)
              (updKey e.src (fun n => n.eraseOutEdge h.id e.dst) g.nodes)) e.dst
        then g.rootNodes ++ [e.dst] else g.rootNodes := by
      rw [← h1]
    by_cases hempty : nD'.inEdges.isEmpty = true
    · have : g'.rootNodes = g.rootNodes ++ [e.dst] := by
        rw [hgr, hde, if_pos hempty]
      rw [this, hdeg]
      have hlen : nD'.inEdges.length = 0 := by
        rw [List.isEmpty_iff.mp hempty]
        rfl
      constructor
      · intro
        exact hlen
      · intro
        exact List.mem_append.mpr (Or.inr (List.mem_cons_self _ _))
    · have : g'.rootNodes = g.rootNodes := by
        rw [hgr, hde, if_neg hempty]
      rw [this, hdeg]
      constructor
      · intro hcon
        obtain ⟨n2, hn2, hni2⟩ := (hinv.rootsCorrect _).mp hcon
        rw [hnD] at hn2
        injection hn2 with hn2
        rw [← hn2] at hni2
        exact absurd hni2 (List.ne_nil_of_mem hmem)
      · intro hcon
        exfalso
        apply hempty
        rw [List.isEmpty_iff]
        exact List.length_eq_zero.mp hcon

/-- The base graph of the C5 witness: an edge 2 from node 0 to node 1. -/
def gC5 : Graph := applyOps 0 [.insertNode, .insertNode, .createEdge ⟨0, 0⟩ ⟨0, 1⟩ 1]

theorem rootset_edge_law_witness :
    (∀ g' eh ns, createEdge gC5 ⟨0, 0⟩ ⟨0, 1⟩ 3 = .ok (g', eh, ns) →
      (1 : Nat) ∉ g'.rootNodes ∧
      (((1 : Nat) ∈ gC5.rootNodes ∧ (1 : Nat) ∉ g'.rootNodes) ↔
        nodeInDegree gC5 1 = 0)) ∧
    (∀ g' ns e, removeEdge gC5 ⟨0, 2⟩ = .ok (g', ns) →
      lookupKey 2 gC5.edges = some e →
      (e.dst ∈ g'.rootNodes ↔ nodeInDegree g' e.dst = 0)) :=
  rootset_edge_law (inv_applyOps 0 [.insertNode, .insertNode, .createEdge ⟨0, 0⟩ ⟨0, 1⟩ 1])
    ⟨0, 0⟩ ⟨0, 1⟩ ⟨0, 2⟩ 3

/-- C6 (amended): `removeNode(n)` first removes every distinct edge
incident to `n` (in-edges, then the out-edges not already removed as
in-edges — a self-loop is a single edge although it counts in both the
in-degree `k` and the out-degree `m`), delivering one edge-removed
notification per distinct incident edge — `k + m − s` where `s` is the
number of self-loops at `n` — followed by exactly one node-removed
notification, and the graph's edge count decreases by exactly that same
number `k + m − s`. -/
theorem removeNode_notifications {g : Graph} (hinv : Inv g) (nid : Nat) (n : NodeRec)
    (hn : lookupKey nid g.nodes = some n) :
    ∃ g', removeNode g ⟨g.gid, nid⟩ =
        .ok (g', ((n.inEdges ++ n.outEdges.filter (fun x => x ∉ n.inEdges)).map
          Notif.edgeRemoved) ++ [Notif.nodeRemoved nid]) ∧
      g'.edges.length + (n.inEdges.length
        + (n.outEdges.filter (fun x => x ∉ n.inEdges)).length) = g.edges.length := by
  have hinNd : n.inEdges.Nodup := hinv.inEdgesNodup _ _ hn
  have houtNd : n.outEdges.Nodup := hinv.outEdgesNodup _ _ hn
  have hinKeys : ∀ x ∈ n.inEdges, (lookupKey x g.edges).isSome = true := by
    intro x hx
    obtain ⟨e, he, -⟩ := (hinv.inEdgesCorrect _ _ hn x).mp hx
    rw [he]
    rfl
  have houtKeys : ∀ x ∈ n.outEdges, (lookupKey x g.edges).isSome = true := by
    intro x hx
    obtain ⟨e, he, -⟩ := (hinv.outEdgesCorrect _ _ hn x).mp hx
    rw [he]
    rfl
  have hrm : removeNode g ⟨g.gid, nid⟩ = .ok (removeNodeCore g nid n) := by
    rw [removeNode]
    have hcond : (⟨g.gid, nid⟩ : Handle).owner = g.gid := rfl
    rw [if_pos hcond]
    dsimp only
    rw [hn]
  have hnot : (removeNodeCore g nid n).2 =
      (removeEdges g (n.inEdges ++ n.outEdges)).2 ++ [Notif.nodeRemoved nid] := rfl
  have hs1 : (removeEdges g n.inEdges).2 = n.inEdges.map Notif.edgeRemoved := by
    rw [removeEdges_notifs _ _ hinNd]
    congr 1
    exact List.filter_eq_self.mpr hinKeys
  have hs2 : (removeEdges (removeEdges g n.inEdges).1 n.outEdges).2 =
      (n.outEdges.filter (fun x => x ∉ n.inEdges)).map Notif.edgeRemoved := by
    rw [removeEdges_notifs _ _ houtNd]
    congr 1
    apply List.filter_congr
    intro x hx
    rw [removeEdges_edges_lookup]
    by_cases hxin : x ∈ n.inEdges
    · rw [if_pos hxin]
      simp [hxin]
    · rw [if_neg hxin]
      rw [houtKeys x hx]
      simp [hxin]
  have hsplitN : (removeEdges g (n.inEdges ++ n.outEdges)).2 =
      (n.inEdges ++ n.outEdges.filter (fun x => x ∉ n.inEdges)).map
        Notif.edgeRemoved := by
    rw [removeEdges_append]
    dsimp only
    rw [hs1, hs2, List.map_append]
  have hedg : (removeNodeCore g nid n).1.edges =
      (removeEdges g (n.inEdges ++ n.outEdges)).1.edges := by
    rw [removeNodeCore]
    cases n.group with
    | none => rfl
    | some a => rfl
  have hef : (removeEdges g (n.inEdges ++ n.outEdges)).1.edges =
      g.edges.filter (fun p => p.1 ∉ n.inEdges ++ n.outEdges) :=
    removeEdges_edges _ _
  have hcount : (g.edges.filter
      (fun p => !(decide (p.1 ∉ n.inEdges ++ n.outEdges)))).length =
      n.inEdges.length + (n.outEdges.filter (fun x => x ∉ n.inEdges)).length := by
    have hKnd : (keysOf (g.edges.filter
        (fun p => !(decide (p.1 ∉ n.inEdges ++ n.outEdges))))).Nodup :=
      hinv.edgesKeysNodup.sublist ((List.filter_sublist _).map Prod.fst)
    have hLnd : (n.inEdges ++ n.outEdges.filter (fun x => x ∉ n.inEdges)).Nodup := by
      refine hinNd.append (houtNd.filter _) ?_
      intro x hx hx2
      have := (List.mem_filter.mp hx2).2
      simp only [decide_not, Bool.not_eq_true'] at this
      exact absurd hx (by simpa using this)
    have hext : ∀ x, x ∈ keysOf (g.edges.filter
        (fun p => !(decide (p.1 ∉ n.inEdges ++ n.outEdges)))) ↔
        x ∈ n.inEdges ++ n.outEdges.filter (fun x => x ∉ n.inEdges) := by
      intro x
      constructor
      · intro hx
        obtain ⟨p, hp, hpx⟩ := List.mem_map.mp hx
        have hp2 := List.mem_filter.mp hp
        have hpm : p.1 ∈ n.inEdges ++ n.outEdges := by
          have := hp2.2
          simp only [Bool.not_eq_true', decide_eq_false_iff_not, not_not] at this
          exact this
        rw [← hpx]
        rcases List.mem_append.mp hpm with h2 | h2
        · exact List.mem_append.mpr (Or.inl h2)
        · by_cases hin : p.1 ∈ n.inEdges
          · exact List.mem_append.mpr (Or.inl hin)
          · refine List.mem_append.mpr (Or.inr ?_)
            rw [List.mem_filter]
            exact ⟨h2, by simpa using hin⟩
      · intro hx
        have hxinc : x ∈ n.inEdges ++ n.outEdges ∧ (lookupKey x g.edges).isSome = true := by
          rcases List.mem_append.mp hx with h2 | h2
          · exact ⟨List.mem_append.mpr (Or.inl h2), hinKeys x h2⟩
          · have h3 := (List.mem_filter.mp h2).1
            exact ⟨List.mem_append.mpr (Or.inr h3), houtKeys x h3⟩
        obtain ⟨e, he⟩ := Option.isSome_iff_exists.mp hxinc.2
        have hpmem : (x, e) ∈ g.edges := mem_of_lookupKey_eq_some he
        apply List.mem_map.mpr
        refine ⟨(x, e), List.mem_filter.mpr ⟨hpmem, ?_⟩, rfl⟩
        simp only [Bool.not_eq_true', decide_eq_false_iff_not, not_not]
        exact hxinc.1
    have hperm : (keysOf (g.edges.filter
        (fun p => !(decide (p.1 ∉ n.inEdges ++ n.outEdges))))).Perm
        (n.inEdges ++ n.outEdges.filter (fun x => x ∉ n.inEdges)) :=
      (List.perm_ext_iff_of_nodup hKnd hLnd).mpr hext
    have hlen := hperm.length_eq
    rw [keysOf, List.length_map] at hlen
    rw [hlen, List.length_append]
  refine ⟨(removeNodeCore g nid n).1, ?_, ?_⟩
  · rw [hrm]
    congr 1
    rw [Prod.ext_iff]
    refine ⟨rfl, ?_⟩
    show (removeNodeCore g nid n).2 = _
    rw [hnot, hsplitN]
  · rw [hedg, hef]
    have hsum := List.length_eq_length_filter_add
      (l := g.edges) (fun p => decide (p.1 ∉ n.inEdges ++ n.outEdges))
    rw [hcount] at hsum
    omega

/-- The base graph of the C6 witness: node 1 with an in-edge 3 from
node 0 and an out-edge 4 to node 2. -/
def gC6 : Graph := applyOps 0
  [.insertNode, .insertNode, .insertNode,
   .createEdge ⟨0, 0⟩ ⟨0, 1⟩ 1, .createEdge ⟨0, 1⟩ ⟨0, 2⟩ 1]

/-- The record of node 1 in `gC6`. -/
def nodeC6 : NodeRec :=
  { inEdges := [3], outEdges := [4], inNodes := [0], outNodes := [2],
    group := none, graph := some 0 }

theorem removeNode_notifications_witness :
    ∃ g', removeNode gC6 ⟨0, 1⟩ =
        .ok (g', ((nodeC6.inEdges
            ++ nodeC6.outEdges.filter (fun x => x ∉ nodeC6.inEdges)).map
          Notif.edgeRemoved) ++ [Notif.nodeRemoved 1]) ∧
      g'.edges.length + (nodeC6.inEdges.length
        + (nodeC6.outEdges.filter (fun x => x ∉ nodeC6.inEdges)).length)
      = gC6.edges.length := by
  have h := removeNode_notifications (g := gC6)
    (inv_applyOps 0 [.insertNode, .insertNode, .insertNode,
      .createEdge ⟨0, 0⟩ ⟨0, 1⟩ 1, .createEdge ⟨0, 1⟩ ⟨0, 2⟩ 1]) 1 nodeC6 (by decide)
  exact h

/-- The graph of the C6 counterexample: a single node 0 with the
self-loop edge 1. -/
def gSelfLoop : Graph := applyOps 0 [.insertNode, .createEdge ⟨0, 0⟩ ⟨0, 0⟩ 1]

/-- C6 counterexample: in `gSelfLoop` node 0 has in-degree 1 and
out-degree 1 (so the claim's `k + m` is 2), yet `removeNode` delivers
exactly one edge-removed notification and the edge count decreases by
exactly one (from 1 to 0), refuting "exactly k+m edge-removed
notifications ... edge count decreasing by exactly k+m". -/
theorem removeNode_selfLoop_counterexample :
    nodeInDegree gSelfLoop 0 = 1 ∧ nodeOutDegree gSelfLoop 0 = 1 ∧
    gSelfLoop.edges.length = 1 ∧
    (removeNode gSelfLoop ⟨0, 0⟩).toOption.map (fun r => r.2)
      = some [Notif.edgeRemoved 1, Notif.nodeRemoved 0] ∧
    (removeNode gSelfLoop ⟨0, 0⟩).toOption.map (fun r => r.1.edges.length)
      = some 0 := by
  refine ⟨by decide, by decide, by decide, by decide, by decide⟩

end GTpo
